import Mathlib

/-!
Verification development for the busytex-lazy repository.

Shallow embedding of the lazy-resolution core: the bundle manager
(`resolveBundles`, `loadBundle`), the bundle loaders (`mountBundle`),
the CTAN fetcher (`fetchPackage`) and the engine selector
(`select`, `recordResult`, `checkRequirements`).  Each definition is
translated from the corresponding TypeScript/JavaScript source function;
JS `Set`s become insertion-ordered lists, JS objects used as maps become
association lists, byte buffers become `List Nat`, and JS numbers become
`ℚ` (the arithmetic performed by the embedded code is exact at this
granularity).  Async functions whose awaits are purely sequential are
embedded as pure functions; the two `loadBundle` implementations, whose
behaviour under concurrent callers matters, are embedded as small-step
state machines driven by an explicit cooperative schedule.
-/

namespace BusytexLazy

/-- Insertion-ordered set add, modelling JS `Set.prototype.add`:
a `Set` iterates in insertion order, and re-adding an element keeps
its original position. -/
def sAdd (l : List String) (x : String) : List String :=
if x ∈ l then l else l ++ [x]

/-- JS `String.prototype.split` with a one-character separator, over
the character list: empty fields are kept, as in JS. -/
def splitOnChar (sep : Char) : List Char → List (List Char)
| [] => [[]]
| c :: cs =>
  if c = sep then [] :: splitOnChar sep cs
  else
    match splitOnChar sep cs with
    | [] => [[c]]
    | t :: ts => (c :: t) :: ts

/-- `s.split(sep)` for a one-character separator. -/
def jsSplit (s : String) (sep : Char) : List String :=
(splitOnChar sep s.data).map (fun cs => ⟨cs⟩)

/-- `s.startsWith(p)` over the character lists. -/
def jsStartsWith (s p : String) : Bool :=
p.data.isPrefixOf s.data

/-! ## BundleManager (module part_000): registry environment and resolveBundles -/

/-- The in-process registry state of a `BundleManager` after
`loadManifest`/`loadBundleDeps`: `packageMap` (package → bundle),
`bundleDeps` (bundle → bundle deps), `packageDeps` (package → package
deps, may be absent: missing keys), and `bundleRegistry` (the set of
bundle names, `none` when `registry.json` was never loaded). -/
structure BMEnv where
  packageMap : List (String × String)
  bundleDeps : List (String × List String)
  packageDeps : List (String × List String)
  bundleRegistry : Option (List String)

/-- `BundleManager.bundleExists`: `this.bundleRegistry?.has(bundleName) ?? false`. -/
def bundleExists (env : BMEnv) (b : String) : Bool :=
match env.bundleRegistry with
| some r => r.contains b
| none => false

/-- The recursive `resolvePackage` closure inside
`BundleManager.resolveBundles`.  State is the pair
(bundles set, resolved set), both insertion-ordered.  The JS recursion
terminates because the `resolved` visited set grows; the embedding uses
a fuel parameter, and every theorem below holds for every fuel value. -/
def resolvePackageGo (env : BMEnv) : Nat → String → List String × List String → List String × List String
| 0, _, st => st
| fuel + 1, pkg, (bundles, resolved) =>
  if pkg ∈ resolved then (bundles, resolved)
  else
    let resolved1 := sAdd resolved pkg
    let bundles1 :=
      match List.lookup pkg env.packageMap with
      | some bn =>
        if bundleExists env bn then
          ((List.lookup bn env.bundleDeps).getD []).foldl
            (fun bs d => if bundleExists env d then sAdd bs d else bs)
            (sAdd bundles bn)
        else bundles
      | none => bundles
    ((List.lookup pkg env.packageDeps).getD []).foldl
      (fun st d => resolvePackageGo env fuel d st) (bundles1, resolved1)

/-- Fuel that dominates the depth of the visited-set recursion. -/
def bmFuel (env : BMEnv) (packages : List String) : Nat :=
packages.length + env.packageDeps.foldl (fun n p => n + p.2.length) 0 + 1

/-- The fixed core seed of `resolveBundles`, in insertion order. -/
def coreBundles : List String := ["core", "latex-base", "l3", "graphics", "tools"]

/-- `BundleManager.resolveBundles(packages, engine)`: seed the core set,
add the engine-specific bundles (branches exist only for `pdflatex` and
`xelatex`), run the package closure, and filter by registry membership
(`[...bundles].filter(b => this.bundleExists(b))`). -/
def resolveBundles (env : BMEnv) (packages : List String) (engine : String) : List String :=
  let bundles0 := coreBundles.foldl sAdd []
  let bundles1 :=
    if engine = "pdflatex" then
      sAdd (sAdd (sAdd bundles0 "fmt-pdflatex") "fonts-cm") "amsfonts"
    else if engine = "xelatex" then
      sAdd (sAdd (sAdd bundles0 "fmt-xelatex") "fontspec") "unicode-math"
    else bundles0
  let st := packages.foldl
    (fun st p => resolvePackageGo env (bmFuel env packages) p st) (bundles1, [])
  st.1.filter (fun b => bundleExists env b)

/-- A registry containing the five core bundles and the three bundles the
spec assigns to lualatex; used to show even a fully-stocked registry
gets no lualatex engine bundles. -/
def luaEnv : BMEnv :=
⟨[], [], [],
 some ["core", "latex-base", "l3", "graphics", "tools",
       "fmt-lualatex", "fmt-xelatex", "fontspec", "unicode-math"]⟩

/-- An environment whose loaded registry is empty. -/
def emptyRegistryEnv : BMEnv := ⟨[], [], [], some []⟩

/-! ## Mounting bundles into the engine filesystem -/

/-- `Uint8Array.prototype.slice(start, end)` for nonnegative integer
indices: elements from `start` (inclusive) to `end` (exclusive), both
clamped to the buffer length; empty when `start ≥ end`. -/
def jsSlice (data : List Nat) (s e : Nat) : List Nat :=
(data.take e).drop s

/-- One operation issued against the engine filesystem.  The mount
loops are embedded as the ordered trace of the `FS.mkdir` and
`FS.writeFile` calls they make. -/
inductive FsOp where
| mkdir (path : String)
| write (path : String) (bytes : List Nat)
deriving DecidableEq

/-- Projects the write operations out of a trace. -/
def FsOp.getWrite : FsOp → Option (String × List Nat)
| .mkdir _ => none
| .write p b => some (p, b)

namespace BundleLoader

/-- One entry of `BundleMetadata.files` in bundle-loader.ts.  The
exclusive end offset field is called `end` in the source; it is renamed
`stop` because `end` is a Lean keyword. -/
structure BundleFile where
  path : String
  name : String
  start : Nat
  stop : Nat

/-- `BundleMetadata` of bundle-loader.ts. -/
structure BundleMetadata where
  name : String
  files : List BundleFile
  totalSize : Nat

/-- Loop body of `BundleLoader.ensureDirectory`: `mkdir` each
accumulated prefix `current += '/' + part`. -/
def ensureDirGo : String → List String → List FsOp
| _, [] => []
| cur, p :: ps =>
  FsOp.mkdir (cur ++ "/" ++ p) :: ensureDirGo (cur ++ "/" ++ p) ps

/-- `BundleLoader.ensureDirectory(FS, dirPath)`:
`dirPath.split('/').filter(p => p)` then mkdir each prefix.
(`PackageManager.ensureDirectory` in engine-selector.ts is the same
loop and is shared here.) -/
def ensureDirOps (dirPath : String) : List FsOp :=
ensureDirGo "" ((jsSplit dirPath (Char.ofNat 47)).filter (fun p => p ≠ ""))

/-- Per-file body of the `BundleLoader.mountBundle` loop: ensure the
directory of `file.path`, slice `data[start:end]`, and write it to
`file.path + "/" + file.name`. -/
def mountFileOps (data : List Nat) (f : BundleFile) : List FsOp :=
ensureDirOps f.path
  ++ [FsOp.write (f.path ++ "/" ++ f.name) (jsSlice data f.start f.stop)]

/-- `BundleLoader.mountBundle` as the trace of filesystem calls it
issues plus the updated `loadedBundles` set.  A bundle already in
`loadedBundles` is skipped.  Writes succeed in the pure filesystem
model; the try/catch in the source only downgrades engine-side write
errors to log lines and is not reachable here. -/
def mountBundle (loaded : List String) (bundleName : String)
    (meta : BundleMetadata) (data : List Nat) : List FsOp × List String :=
if bundleName ∈ loaded then ([], loaded)
else (meta.files.flatMap (mountFileOps data), sAdd loaded bundleName)

end BundleLoader

namespace PackageManager

/-- `BundleFile` of the `PackageManager` module in engine-selector.ts
(same shape; `end` renamed `stop`). -/
structure BundleFile where
  path : String
  name : String
  start : Nat
  stop : Nat

/-- `BundleMetadata` of the `PackageManager` module. -/
structure BundleMetadata where
  name : String
  version : String
  size : Nat
  packages : List String
  dependencies : List String
  files : List BundleFile

/-- `PackageManager.mountBundle(metadata, data)` as its trace of
filesystem calls: for every metadata entry — with no check of any kind
on `file.path` — ensure the directory, slice `data[start:end]`, and
write to `dir + "/" + file.name`.  The catch branch (unlink then
rewrite) fires only when the engine filesystem rejects the first write
and is not reachable in the pure model. -/
def mountBundle (meta : BundleMetadata) (data : List Nat) : List FsOp :=
meta.files.flatMap (fun f =>
  BundleLoader.ensureDirOps f.path
    ++ [FsOp.write (f.path ++ "/" ++ f.name) (jsSlice data f.start f.stop)])

/-- A metadata record whose single entry lies outside `/texlive/`. -/
def evilMeta : BundleMetadata :=
⟨"evil", "1", 1, [], [], [⟨"/evil", "x.sty", 0, 1⟩]⟩

end PackageManager

/-- A one-file bundle metadata used as a concrete mount input. -/
def demoMeta : BundleLoader.BundleMetadata :=
⟨"core", [⟨"/texlive/texmf-dist/tex/latex/base", "article.cls", 1, 3⟩], 3⟩

/-! ## CTANFetcher (ctan.js module, appended to README.md) -/

/-- Modelled from the spec: `CTAN_CACHE_VERSION` is imported from the
storage module (`./storage.js`), which is not among the provided
sources; the spec says only that `cacheVersion` is compared against a
current constant on read.  The concrete value is irrelevant to every
theorem below. -/
def CTAN_CACHE_VERSION : String := "v1"

namespace CTANFetcher

/-- A persisted package record as written by `savePackageMeta`: either
a negative marker `{notFound: true, cacheVersion}` or a full record
`{name, files, dependencies, cacheVersion}`.  The absent JS fields of a
negative record are modelled as `false`/`[]`. -/
structure PkgMeta where
  notFound : Bool
  cacheVersion : String
  files : List String
  dependencies : List String
deriving DecidableEq

/-- The record store (`getPackageMeta`/`savePackageMeta`), keyed by
package name. -/
def RecordStore : Type := String → Option PkgMeta

/-- The OPFS byte store (`readFromOPFS`/`writeToOPFS`), keyed by
canonical path. -/
def Opfs : Type := String → Option (List Nat)

/-- `savePackageMeta`. -/
def putRecord (store : RecordStore) (k : String) (v : PkgMeta) : RecordStore :=
fun x => if x = k then some v else store x

/-- Removal of a record, used to express that a version-mismatched
record behaves as if absent. -/
def eraseRecord (store : RecordStore) (k : String) : RecordStore :=
fun x => if x = k then none else store x

/-- `writeToOPFS`. -/
def opfsWrite (opfs : Opfs) (k : String) (v : List Nat) : Opfs :=
fun x => if x = k then some v else opfs x

/-- Mutable per-fetcher state: the `mountedFiles` set and `fetchCount`. -/
structure FetcherSt where
  mountedFiles : List String
  fetchCount : Nat
deriving DecidableEq

/-- Result of `loadPackageFromCache`: the `{notFound: true}` marker or
a cache hit with the files found in OPFS. -/
inductive CacheHit where
| notFound
| hit (files : List (String × List Nat)) (dependencies : List String)
deriving DecidableEq

/-- `CTANFetcher.loadPackageFromCache(packageName)`: consult the record
store; a missing record or one whose `cacheVersion` differs from the
current constant yields `null`; a `notFound` record yields the marker;
otherwise each recorded path is read from OPFS (paths found there are
added to `mountedFiles`). -/
def loadPackageFromCache (store : RecordStore) (opfs : Opfs) (st : FetcherSt)
    (packageName : String) : Option CacheHit × FetcherSt :=
match store packageName with
| none => (none, st)
| some meta =>
  if meta.cacheVersion ≠ CTAN_CACHE_VERSION then (none, st)
  else if meta.notFound then (some .notFound, st)
  else
    let files := meta.files.filterMap (fun p => (opfs p).map (fun c => (p, c)))
    (some (.hit files meta.dependencies),
     { st with mountedFiles := files.foldl (fun m pc => sAdd m pc.1) st.mountedFiles })

/-- A successfully parsed JSON body of `GET /api/fetch/<name>`: an
optional `error` field, the `files` map in insertion order (file
contents are modelled as already-decoded byte lists; the base64/text
decoding branches of the source all produce a `Uint8Array`), and the
`dependencies` list. -/
structure RespBody where
  error : Option String
  files : List (String × List Nat)
  dependencies : List String
deriving DecidableEq

/-- The outcome of the `fetch` call inside `fetchPackage`: either the
promise rejects (transport error: network down, timeout), or a response
arrives with an HTTP status and a body whose JSON parse may itself fail
(`Except.error`). -/
inductive NetResult where
| reject
| resp (status : Nat) (body : Except Unit RespBody)

/-- The negative record `{notFound: true, cacheVersion: CTAN_CACHE_VERSION}`. -/
def notFoundRecord : PkgMeta := ⟨true, CTAN_CACHE_VERSION, [], []⟩

/-- Everything `fetchPackage` produces: its return value and the
updated stores, fetcher state, and the count of network requests
issued (instrumentation: incremented exactly when the `fetch` call is
reached). -/
structure FetchOut where
  result : Option (List (String × List Nat) × List String)
  store : RecordStore
  opfs : Opfs
  fetcher : FetcherSt
  netCalls : Nat

/-- `CTANFetcher.fetchPackage(packageName)`: consult the cache first;
on a miss, issue the network request.  `response.ok` is
`200 ≤ status < 300`.  A non-ok response or an `error` field in the
body persists the negative record and returns `null`; a rejected fetch
or a JSON parse failure lands in the catch block and returns `null`
without persisting; otherwise every file is written to OPFS and a full
record is persisted. -/
def fetchPackage (store : RecordStore) (opfs : Opfs) (st : FetcherSt)
    (netCalls : Nat) (packageName : String) (net : NetResult) : FetchOut :=
match loadPackageFromCache store opfs st packageName with
| (some .notFound, st1) => ⟨none, store, opfs, st1, netCalls⟩
| (some (.hit files deps), st1) => ⟨some (files, deps), store, opfs, st1, netCalls⟩
| (none, st1) =>
  match net with
  | .reject => ⟨none, store, opfs, st1, netCalls + 1⟩
  | .resp status body =>
    if 200 ≤ status ∧ status < 300 then
      match body with
      | .error _ => ⟨none, store, opfs, st1, netCalls + 1⟩
      | .ok data =>
        if data.error.isSome then
          ⟨none, putRecord store packageName notFoundRecord, opfs, st1, netCalls + 1⟩
        else
          ⟨some (data.files, data.dependencies),
           putRecord store packageName
             ⟨false, CTAN_CACHE_VERSION, data.files.map Prod.fst, data.dependencies⟩,
           data.files.foldl (fun o pc => opfsWrite o pc.1 pc.2) opfs,
           { mountedFiles := data.files.foldl (fun m pc => sAdd m pc.1) st1.mountedFiles,
             fetchCount := st1.fetchCount + 1 },
           netCalls + 1⟩
    else
      ⟨none, putRecord store packageName notFoundRecord, opfs, st1, netCalls + 1⟩

/-- An empty fetcher state. -/
def st0 : FetcherSt := ⟨[], 0⟩

end CTANFetcher

/-! ## EngineSelector (engine-selector.ts) -/

/-- The newline character. -/
def nlChar : Char := Char.ofNat 10

/-- The opening curly brace character. -/
def lbraceChar : Char := Char.ofNat 123

/-- The closing curly brace character. -/
def rbraceChar : Char := Char.ofNat 125

/-- The backslash character. -/
def bsChar : Char := Char.ofNat 92

/-- A single-quote string, used to build log/reason messages. -/
def sq : String := String.singleton (Char.ofNat 39)

/-- JS `\s` (whitespace class), as used by `replace(/\s+/g, ' ')` and
`trim()`. -/
def jsIsSpace (c : Char) : Bool :=
c.toNat = 9 || c.toNat = 10 || c.toNat = 11 || c.toNat = 12 || c.toNat = 13
|| c.toNat = 32 || c.toNat = 160 || c.toNat = 0x1680
|| (0x2000 ≤ c.toNat && c.toNat ≤ 0x200A)
|| c.toNat = 0x2028 || c.toNat = 0x2029 || c.toNat = 0x202F
|| c.toNat = 0x205F || c.toNat = 0x3000 || c.toNat = 0xFEFF

/-- JS regex line terminators (the characters `.` does not match). -/
def isLineTerm (c : Char) : Bool :=
c.toNat = 10 || c.toNat = 13 || c.toNat = 0x2028 || c.toNat = 0x2029

/-- A word character, for the `\b` boundary of the command regexes. -/
def isWordChar (c : Char) : Bool :=
(97 ≤ c.toNat && c.toNat ≤ 122) || (65 ≤ c.toNat && c.toNat ≤ 90)
|| (48 ≤ c.toNat && c.toNat ≤ 57) || c.toNat = 95

/-- `source.replace(/%.*$/gm, '')`: drop, on every line, everything
from the first `%` to the end of the line. -/
def stripLineComments (s : String) : String :=
⟨joinWithChar nlChar
  ((splitOnChar nlChar s.data).map (fun l => l.takeWhile (fun c => c ≠ '%')))⟩
where
  joinWithChar (sep : Char) : List (List Char) → List Char
  | [] => []
  | [l] => l
  | l :: ls => l ++ sep :: joinWithChar sep ls

/-- `replace(/\s+/g, ' ')`: collapse each maximal whitespace run to one
space; the boolean records whether the previous character was part of a
run already collapsed. -/
def collapseWsGo : Bool → List Char → List Char
| _, [] => []
| prev, c :: cs =>
  if jsIsSpace c then
    if prev then collapseWsGo true cs
    else Char.ofNat 32 :: collapseWsGo true cs
  else c :: collapseWsGo false cs

/-- JS `String.prototype.trim`. -/
def jsTrim (l : List Char) : List Char :=
((l.dropWhile jsIsSpace).reverse.dropWhile jsIsSpace).reverse

/-- Wrap into the signed 32-bit range, as `x | 0` / `x & x` do in JS. -/
def toInt32 (x : Int) : Int := (x + 2 ^ 31) % 2 ^ 32 - 2 ^ 31

/-- One step of the djb2 loop
`hash = ((hash << 5) + hash) + c; hash = hash & hash`:
the shift wraps to 32 bits, the additions are exact, and the `& hash`
wraps the sum back to a signed 32-bit integer. -/
def djb2Step (h : Int) (c : Nat) : Int :=
toInt32 (toInt32 (h * 32) + h + c)

/-- Digit characters of `Number.prototype.toString(36)`. -/
def base36Digit (d : Nat) : Char :=
if d < 10 then Char.ofNat (48 + d) else Char.ofNat (87 + d)

/-- Base-36 digits of `n`, most significant first (fuel-driven). -/
def natToBase36Go : Nat → Nat → List Char
| 0, _ => []
| _ + 1, 0 => []
| fuel + 1, n => natToBase36Go fuel (n / 36) ++ [base36Digit (n % 36)]

/-- `n.toString(36)`. -/
def natToBase36 (n : Nat) : String :=
if n = 0 then "0" else ⟨natToBase36Go (n + 1) n⟩

/-- `EngineSelector.hashPreamble`: strip line comments, collapse
whitespace runs, trim, run djb2 over the UTF-16 code units (characters
here; all witnesses are in the BMP where the two coincide), and emit
`p_` plus the absolute value in base 36. -/
def hashPreamble (preamble : String) : String :=
let normalized := jsTrim (collapseWsGo false (stripLineComments preamble).data)
let h := normalized.foldl (fun h c => djb2Step h c.toNat) (5381 : Int)
"p_" ++ natToBase36 h.natAbs

/-- Strip an expected literal from the front of the input; `none` when
the input does not start with it. -/
def stripLit : List Char → List Char → Option (List Char)
| [], l => some l
| _ :: _, [] => none
| p :: ps, c :: cs => if c = p then stripLit ps cs else none

/-- Index of the first occurrence of `pat` in the input, scanning from
position `i`. -/
def findSubstrGo (pat : List Char) : Nat → List Char → Option Nat
| i, [] => if pat.isEmpty then some i else none
| i, l@(_ :: t) => if pat.isPrefixOf l then some i else findSubstrGo pat (i + 1) t

/-- The literal `\begin{document}`. -/
def beginDocToken : String := "\\begin\x7bdocument\x7d"

/-- `EngineSelector.extractPreamble`:
`source.match(/^([\s\S]*?)\\begin\{document\}/)` captures everything
before the first `\begin{document}`; with no match the first 2000
characters are taken. -/
def extractPreamble (source : String) : String :=
match findSubstrGo beginDocToken.data 0 source.data with
| some i => ⟨source.data.take i⟩
| none => ⟨source.data.take 2000⟩

/-- `([^}]+)\}` after an opening brace: the capture is the maximal
nonempty run of non-`}` characters, which must be followed by `}`.
Returns the capture and the rest of the input after the match. -/
def braceCapture (l : List Char) : Option (List Char × List Char) :=
match l.dropWhile (fun c => c ≠ rbraceChar) with
| [] => none
| _ :: after =>
  let content := l.takeWhile (fun c => c ≠ rbraceChar)
  if content.isEmpty then none else some (content, after)

/-- Continuations after each candidate `]` for the lazy optional group
`(?:\[.*?\])?`: `.` does not cross a line terminator, and laziness with
backtracking means every `]` on the same line is tried nearest-first. -/
def bracketAlts : List Char → List (List Char)
| [] => []
| c :: cs =>
  if isLineTerm c then []
  else if c = ']' then cs :: bracketAlts cs
  else bracketAlts cs

/-- First successful application of `f` along a list. -/
def firstSome {α β : Type} (f : α → Option β) : List α → Option β
| [] => none
| a :: as =>
  match f a with
  | some b => some b
  | none => firstSome f as

/-- Attempt to match `lit(?:\[.*?\])?\{([^}]+)\}` at the head of the
input (the shared shape of the `\usepackage`, `\RequirePackage` and
`\documentclass` regexes). -/
def matchCmdAt (lit : List Char) (l : List Char) : Option (List Char × List Char) :=
match stripLit lit l with
| none => none
| some r1 =>
  match r1 with
  | [] => none
  | c :: r2 =>
    if c = '[' then
      firstSome (fun rest =>
        match rest with
        | c2 :: r3 => if c2 = lbraceChar then braceCapture r3 else none
        | [] => none) (bracketAlts r2)
    else if c = lbraceChar then braceCapture r2 else none

/-- The global-regex scan loop (`while (regex.exec(source))`): try a
match at each position, resuming after the end of each match. -/
def scanMatches (lit : List Char) : Nat → List Char → List (List Char)
| 0, _ => []
| _ + 1, [] => []
| fuel + 1, l@(_ :: t) =>
  match matchCmdAt lit l with
  | some (cap, after) => cap :: scanMatches lit fuel after
  | none => scanMatches lit fuel t

/-- All captures of the global regex over the input. -/
def scanAll (lit : List Char) (l : List Char) : List (List Char) :=
scanMatches lit (l.length + 1) l

/-- `EngineSelector.extractPackages`: `\usepackage` captures are split
on commas and trimmed; the first `\documentclass` capture is appended
as `class:<name>` (no split, no trim).  Note: this function has no
`\RequirePackage` branch. -/
def extractPackages (source : String) : List String :=
((scanAll "\\usepackage".data source.data).flatMap
  (fun cap => (splitOnChar ',' cap).map (fun p => (⟨jsTrim p⟩ : String))))
++ (match (scanAll "\\documentclass".data source.data).head? with
    | some cap => ["class:" ++ (⟨cap⟩ : String)]
    | none => [])

/-- The three engines. -/
inductive Engine where
| pdflatex
| xelatex
| lualatex
deriving DecidableEq

/-- The engine identifier string. -/
def engineName : Engine → String
| .pdflatex => "pdflatex"
| .xelatex => "xelatex"
| .lualatex => "lualatex"

/-- Selection confidence. -/
inductive Confidence where
| high
| medium
| low
deriving DecidableEq

/-- The result of `EngineSelector.select`. -/
structure SelectionResult where
  engine : Engine
  reason : String
  confidence : Confidence
deriving DecidableEq

/-- Match of one command regex `/\\name\b/` at the head of the input:
the literal backslash and name, followed by end of input or a non-word
character. -/
def cmdMatchHere (cmd : List Char) (l : List Char) : Bool :=
match stripLit (bsChar :: cmd) l with
| none => false
| some [] => true
| some (c :: _) => !isWordChar c

/-- `/\\name\b/.test(s)`: the command matches somewhere in the input. -/
def cmdTest (cmd : List Char) : List Char → Bool
| [] => false
| l@(_ :: t) => cmdMatchHere cmd l || cmdTest cmd t

/-- `RegExp.prototype.source` of a command regex, as interpolated into
the selection reason. -/
def cmdSource (name : String) : String := "\\\\" ++ name ++ "\\b"

/-- The Unicode-script character class of the xelatex requirement:
Arabic, Devanagari, Thai, CJK, Hangul. -/
def isXeScriptChar (c : Char) : Bool :=
(0x0600 ≤ c.toNat && c.toNat ≤ 0x06FF) || (0x0900 ≤ c.toNat && c.toNat ≤ 0x097F)
|| (0x0E00 ≤ c.toNat && c.toNat ≤ 0x0E7F) || (0x3000 ≤ c.toNat && c.toNat ≤ 0x9FFF)
|| (0xAC00 ≤ c.toNat && c.toNat ≤ 0xD7AF)

/-- An engine requirement: package set, command regexes (kept as the
command names of `/\\name\b/`), script character class (`(?!)` is the
constantly-false class), and description. -/
structure EngineRequirement where
  packages : List String
  commands : List String
  scripts : Char → Bool
  description : String

/-- The xelatex requirement table of `getDefaultRequirements`. -/
def xelatexRequirement : EngineRequirement :=
⟨["fontspec", "unicode-math", "polyglossia", "xeCJK", "xunicode",
  "xltxtra", "mathspec", "realscripts", "metalogo", "xetex"],
 ["setmainfont", "setsansfont", "setmonofont", "newfontfamily",
  "setmathfont", "defaultfontfeatures"],
 isXeScriptChar,
 "XeLaTeX required for Unicode/OpenType features"⟩

/-- The lualatex requirement table of `getDefaultRequirements`. -/
def lualatexRequirement : EngineRequirement :=
⟨["luacode", "luatexbase", "luaotfload", "luamplib", "luatextra"],
 ["directlua", "luaexec", "luadirect"],
 fun _ => false,
 "LuaLaTeX required for Lua scripting"⟩

/-- The default requirements map, in its insertion order. -/
def requirementsList : List (Engine × EngineRequirement) :=
[(.xelatex, xelatexRequirement), (.lualatex, lualatexRequirement)]

/-- The body of the per-engine loop of
`EngineSelector.checkRequirements`: first matching package, then first
matching command regex, then the script class, each with confidence
`high`. -/
def checkReqOne (withoutComments : List Char) (packages : List String)
    (er : Engine × EngineRequirement) : Option SelectionResult :=
match packages.find? (fun p => er.2.packages.contains p) with
| some pkg =>
  some ⟨er.1, "package " ++ sq ++ pkg ++ sq ++ " requires " ++ engineName er.1, .high⟩
| none =>
  match er.2.commands.find? (fun c => cmdTest c.data withoutComments) with
  | some c =>
    some ⟨er.1, "command " ++ cmdSource c ++ " requires " ++ engineName er.1, .high⟩
  | none =>
    if withoutComments.any er.2.scripts then
      some ⟨er.1, er.2.description, .high⟩
    else none

/-- `EngineSelector.checkRequirements(source, packages)`: the command
and script regexes are tested against `source.replace(/%.*$/gm, '')`;
engines are tried in map insertion order. -/
def checkRequirements (source : String) (packages : List String) : Option SelectionResult :=
requirementsList.findSome? (checkReqOne (stripLineComments source).data packages)

/-- An engine preference: package set and description. -/
structure EnginePreference where
  packages : List String
  description : String

/-- The xelatex preference table of `getDefaultPreferences`. -/
def xelatexPreference : EnginePreference :=
⟨["geometry", "fancyhdr", "titlesec", "enumitem", "babel", "inputenc", "fontenc"],
 "XeLaTeX preferred for cleaner font handling"⟩

/-- The default preferences map. -/
def preferencesList : List (Engine × EnginePreference) := [(.xelatex, xelatexPreference)]

/-- `EngineSelector.checkPreferences(packages)`. -/
def checkPreferences (packages : List String) : Option SelectionResult :=
preferencesList.findSome? (fun ep =>
  (packages.find? (fun p => ep.2.packages.contains p)).map
    (fun pkg =>
      ⟨ep.1, "package " ++ sq ++ pkg ++ sq ++ " - " ++ ep.2.description, .medium⟩))

/-- One stored per-engine statistics record. -/
structure EngineStats where
  engine : Engine
  compileCount : Nat
  avgTimeMs : ℚ
  successRate : ℚ
  lastUsed : ℚ
deriving DecidableEq

/-- A value in the selector storage: either a stats array (stored as
JSON under `stats_<hash>`) or a plain string (the cm-super flag).  The
JSON round trip of `getStats`/`saveStats` is modelled by storing the
parsed value; a value of the wrong shape reads as `null`, like a JSON
parse failure. -/
inductive StorageVal where
| stats (l : List EngineStats)
| flag (s : String)
deriving DecidableEq

/-- The selector storage adapter. -/
def Storage : Type := String → Option StorageVal

/-- `EngineSelector.getStats(preambleHash)`. -/
def getStats (storage : Storage) (preambleHash : String) : Option (List EngineStats) :=
match storage ("stats_" ++ preambleHash) with
| some (.stats l) => some l
| _ => none

/-- `EngineSelector.saveStats(preambleHash, stats)`. -/
def saveStats (storage : Storage) (preambleHash : String) (l : List EngineStats) : Storage :=
fun k => if k = "stats_" ++ preambleHash then some (.stats l) else storage k

/-- `storage.set(key, value)` for the flag. -/
def setFlag (storage : Storage) (key : String) (v : String) : Storage :=
fun k => if k = key then some (.flag v) else storage k

/-- `(await this.storage.get(key)) === 'true'`. -/
def flagIsTrue (storage : Storage) (key : String) : Bool :=
match storage key with
| some (.flag s) => s = "true"
| _ => false

/-- JS `Math.round` (round half toward positive infinity). -/
def jsRound (x : ℚ) : Int := ⌊x + 1 / 2⌋

/-- Insertion-ordered set add for engines (`new Set(...)`). -/
def eAdd (l : List Engine) (x : Engine) : List Engine :=
if x ∈ l then l else l ++ [x]

/-- `Array.prototype.join(', ')`. -/
def joinComma : List String → String
| [] => ""
| [x] => x
| x :: xs => x ++ ", " ++ joinComma xs

/-- Steps 3–5 of `EngineSelector.select`: the learned cm-super flag,
then soft preferences, then the pdflatex default. -/
def selectStep3 (storage : Storage) (preambleHash : String)
    (packages : List String) : SelectionResult :=
if flagIsTrue storage ("cmsuper_" ++ preambleHash) then
  ⟨.xelatex, "preamble triggers cm-super fonts (learned)", .high⟩
else
  match checkPreferences packages with
  | some r => r
  | none => ⟨.pdflatex, "default (fastest for simple documents)", .low⟩

/-- The avoidance branch of step 2 of `select`: engines with recorded
low success are avoided; with no viable alternative (or no failed
entries) control falls through to step 3. -/
def selectAvoidance (storage : Storage) (preambleHash : String)
    (packages : List String) (l : List EngineStats) : SelectionResult :=
match l.filter (fun s => decide (s.successRate < 1 / 2)) with
| [] => selectStep3 storage preambleHash packages
| failed =>
  let failedEngines := (failed.map (fun f => f.engine)).foldl eAdd []
  match [Engine.pdflatex, Engine.xelatex, Engine.lualatex].filter
      (fun e => !failedEngines.contains e) with
  | v :: _ =>
    ⟨v, "avoiding " ++ joinComma (failedEngines.map engineName)
        ++ " (low success rate)", .medium⟩
  | [] => selectStep3 storage preambleHash packages

/-- `EngineSelector.select(source)`: hard requirements, then the
historical best among entries with `successRate > 0.5` and
`compileCount >= 2` (ties keep the earlier entry, as
`reduce((a, b) => a.avgTimeMs < b.avgTimeMs ? a : b)` does), then
avoidance, then steps 3–5. -/
def select (storage : Storage) (source : String) : SelectionResult :=
let packages := extractPackages source
let preambleHash := hashPreamble (extractPreamble source)
match checkRequirements source packages with
| some r => r
| none =>
  match getStats storage preambleHash with
  | some l =>
    if 0 < l.length then
      match l.filter (fun s =>
          decide ((1 : ℚ) / 2 < s.successRate) && decide (2 ≤ s.compileCount)) with
      | f :: fs =>
        let fastest := fs.foldl (fun a b => if a.avgTimeMs < b.avgTimeMs then a else b) f
        ⟨fastest.engine,
         "historical best: " ++ toString (jsRound fastest.avgTimeMs) ++ "ms avg",
         .high⟩
      | [] => selectAvoidance storage preambleHash packages l
    else selectStep3 storage preambleHash packages
  | none => selectStep3 storage preambleHash packages

/-- The argument of `EngineSelector.recordResult`. -/
structure CompileResult where
  engine : Engine
  success : Bool
  timeMs : ℚ
  retries : Nat
  fetchedPackages : List String
  triggeredCmSuper : Bool
deriving DecidableEq

/-- In-place mutation of the entry found by
`stats.find(s => s.engine === result.engine)`: the first matching
element is replaced. -/
def updateFirst : List EngineStats → Engine → (EngineStats → EngineStats) → List EngineStats
| [], _, _ => []
| s :: rest, e, f =>
  if s.engine = e then f s :: rest else s :: updateFirst rest e f

/-- `EngineSelector.recordResult(source, result)` (`now` stands for
`Date.now()`): load the stats array for the preamble hash, create a
zeroed entry for the engine when absent, update the running averages
`avg = (avg*n + t)/(n+1)` and `rate = (rate*n + s)/(n+1)`, increment
`compileCount`, save, and set the cm-super flag when
`triggeredCmSuper && engine === 'pdflatex'`. -/
def recordResult (storage : Storage) (source : String) (result : CompileResult)
    (now : ℚ) : Storage :=
let preambleHash := hashPreamble (extractPreamble source)
let stats := (getStats storage preambleHash).getD []
let stats1 :=
  if stats.any (fun s => decide (s.engine = result.engine)) then stats
  else stats ++ [⟨result.engine, 0, 0, 0, now⟩]
let stats2 := updateFirst stats1 result.engine (fun es =>
  ⟨es.engine, es.compileCount + 1,
   (es.avgTimeMs * es.compileCount + result.timeMs) / (es.compileCount + 1),
   (es.successRate * es.compileCount + (if result.success then 1 else 0))
     / (es.compileCount + 1),
   now⟩)
let storage1 := saveStats storage preambleHash stats2
if result.triggeredCmSuper && decide (result.engine = Engine.pdflatex) then
  setFlag storage1 ("cmsuper_" ++ preambleHash) "true"
else storage1

/-- Historical statistics used as a concrete selection input: pdflatex
averages 100ms, xelatex 50ms, both fully successful. -/
def demoStats : List EngineStats :=
[⟨.pdflatex, 3, 100, 1, 0⟩, ⟨.xelatex, 2, 50, 1, 0⟩]

/-- A storage holding `demoStats` under the fingerprint of the empty
source. -/
def demoStorage : Storage :=
fun k =>
  if k = "stats_" ++ hashPreamble (extractPreamble "") then some (.stats demoStats)
  else none

/-- A source whose only xelatex-requiring command sits inside a `%`
line comment. -/
def commentedSource : String := "% \\setmainfont\nhello"

/-! ## loadBundle under concurrent callers

JS is single-threaded and cooperative: control changes hands only at
`await` points, so each code stretch between awaits is atomic.  The two
`loadBundle` implementations are embedded as small-step machines over
one bundle name with two callers; an explicit schedule picks which task
runs at each step.  `net` counts issued network requests and `starts`
counts `_loadBundle` invocations (pure instrumentation). -/

namespace PMLoad

/-- Where a `PackageManager.loadBundle(name)` caller stands:
before its synchronous entry block; owner of the in-flight
`_loadBundle` promise (it registered the `loadingBundles` entry and
runs the `try`/`finally`); joined to an existing promise (it returned
`loadingBundles.get(name)`); or returned with the promise outcome. -/
inductive Pc where
| start
| owner
| joined
| ret (ok : Bool)
deriving DecidableEq

/-- The `_loadBundle` promise: not created, pending (`fired` set once
the network request has been issued), or settled with its outcome. -/
inductive Prom where
| non
| pend (fired : Bool)
| settled (ok : Bool)
deriving DecidableEq

/-- Machine state for one dependency-free bundle name:
`loaded` - `loadedBundles.has(name)`; `entry` - `loadingBundles` has
the name; `net` - network requests issued; `starts` - `_loadBundle`
invocations; `prom` - the promise; `c1`, `c2` - the two callers. -/
structure St where
  loaded : Bool
  entry : Bool
  net : Nat
  starts : Nat
  prom : Prom
  c1 : Pc
  c2 : Pc
deriving DecidableEq

/-- Which task the scheduler runs: caller 1, caller 2, or the promise
body (the event-loop continuation of `_loadBundle`). -/
inductive Task where
| t1
| t2
| body
deriving DecidableEq

/-- One scheduled step of a caller.  `.start` is the synchronous entry
block of `loadBundle`: return if loaded; join an existing
`loadingBundles` entry; otherwise invoke `_loadBundle`, register the
entry and become owner.  The owner resumes after settlement: on success
add to `loadedBundles`, and in `finally` delete the entry either way.
A joiner just observes the settled promise. -/
def callerStep (pc : Pc) (s : St) : Pc × St :=
match pc with
| .start =>
  if s.loaded then (.ret true, s)
  else if s.entry then (.joined, s)
  else (.owner, { s with entry := true, starts := s.starts + 1, prom := .pend false })
| .owner =>
  match s.prom with
  | .settled b => (.ret b, { s with loaded := s.loaded || b, entry := false })
  | _ => (.owner, s)
| .joined =>
  match s.prom with
  | .settled b => (.ret b, s)
  | _ => (.joined, s)
| .ret b => (.ret b, s)

/-- One step of the promise body (for a bundle with no dependencies):
issue the fetch, then settle with the outcome `o`. -/
def bodyStep (o : Bool) (s : St) : St :=
match s.prom with
| .pend false => { s with net := s.net + 1, prom := .pend true }
| .pend true => { s with prom := .settled o }
| _ => s

/-- One scheduler step. -/
def step (o : Bool) (t : Task) (s : St) : St :=
match t with
| .t1 =>
  let r := callerStep s.c1 s
  { r.2 with c1 := r.1 }
| .t2 =>
  let r := callerStep s.c2 s
  { r.2 with c2 := r.1 }
| .body => bodyStep o s

/-- Cold cache, both callers about to call `loadBundle(name)`. -/
def init : St := ⟨false, false, 0, 0, .non, .start, .start⟩

/-- Run a schedule from the cold state. -/
def run (o : Bool) (sched : List Task) : St :=
sched.foldl (fun s t => step o t s) init

/-- The reachability invariant of the machine. -/
def Inv (o : Bool) (s : St) : Prop :=
(¬(s.c1 = .owner ∧ s.c2 = .owner))
∧ (s.entry = true ↔ (s.c1 = .owner ∨ s.c2 = .owner))
∧ (s.starts = 0 → s.c1 = .start ∧ s.c2 = .start ∧ s.net = 0
    ∧ s.prom = .non ∧ s.entry = false ∧ s.loaded = false)
∧ (∀ b, s.prom = .settled b → b = o)
∧ (s.loaded = true → s.prom = .settled true)
∧ (∀ b, s.c1 = .ret b → b = o)
∧ (∀ b, s.c2 = .ret b → b = o)
∧ (o = true → s.starts ≤ 1 ∧ s.net ≤ 1)
∧ (o = true → s.entry = false → s.loaded = false → s.starts = 0)
∧ (o = true → (s.prom = .pend true ∨ s.prom = .settled true) → s.net = 1)
∧ (o = true → s.prom = .pend false → s.net = 0)
∧ (o = true → ∀ b, (s.c1 = .ret b ∨ s.c2 = .ret b) → s.prom = .settled true)

/-- The witness schedule: both callers enter, the body fetches and
settles, both resume. -/
def demoSched : List Task := [.t1, .t2, .body, .body, .t1, .t2]

end PMLoad

namespace BMLoad

/-- Where a `BundleManager.loadBundle(name)` caller stands: before the
synchronous memory-cache check; awaiting `getBundleFromOPFS`; awaiting
`fetch` (the request has been issued); awaiting
`response.arrayBuffer()`; awaiting `decompress`; or returned. -/
inductive Pc where
| start
| wOpfs
| wFetch
| wBuf
| wDec
| ret
deriving DecidableEq

/-- Machine state: `cache` - `bundleCache.has(name)`; `opfs` - the
bundle blob is in OPFS (cold start: absent); `net` - network requests
issued. -/
structure St where
  cache : Bool
  opfs : Bool
  net : Nat
  c1 : Pc
  c2 : Pc
deriving DecidableEq

/-- The scheduled task: caller 1 or caller 2 (there is no separate
promise body: each caller runs its own await chain). -/
inductive Task where
| t1
| t2
deriving DecidableEq

/-- One scheduled step of a `BundleManager.loadBundle` caller.  There
is no `loadingBundles`-style dedup map anywhere in this function: after
the memory-cache miss each caller independently awaits OPFS and, on a
miss there, issues its own fetch. -/
def callerStep (pc : Pc) (s : St) : Pc × St :=
match pc with
| .start => if s.cache then (.ret, s) else (.wOpfs, s)
| .wOpfs =>
  if s.opfs then (.ret, { s with cache := true })
  else (.wFetch, { s with net := s.net + 1 })
| .wFetch => (.wBuf, s)
| .wBuf => (.wDec, s)
| .wDec => (.ret, { s with cache := true, opfs := true })
| .ret => (.ret, s)

/-- One scheduler step. -/
def step (t : Task) (s : St) : St :=
match t with
| .t1 =>
  let r := callerStep s.c1 s
  { r.2 with c1 := r.1 }
| .t2 =>
  let r := callerStep s.c2 s
  { r.2 with c2 := r.1 }

/-- Cold cache, both callers about to call `loadBundle(name)`. -/
def init : St := ⟨false, false, 0, .start, .start⟩

/-- Run a schedule from the cold state. -/
def run (sched : List Task) : St :=
sched.foldl (fun s t => step t s) init

end BMLoad

-- ===== THEOREMS =====

/-- Membership is preserved by `sAdd`. -/
theorem mem_sAdd {l : List String} {a : String} (x : String) (h : a ∈ l) :
    a ∈ sAdd l x := by
  unfold sAdd
  split
  · exact h
  · exact List.mem_append_left _ h

/-- The added element is a member after `sAdd`. -/
theorem self_mem_sAdd (l : List String) (x : String) : x ∈ sAdd l x := by
  unfold sAdd
  split
  · assumption
  · exact List.mem_append_right _ (List.mem_singleton.mpr rfl)

/-- A predicate preserved by each fold step is preserved by `List.foldl`. -/
theorem foldl_pres {α β : Type} {P : α → Prop} (f : α → β → α)
    (h : ∀ st d, P st → P (f st d)) :
    ∀ (l : List β) (st : α), P st → P (l.foldl f st) := by
  intro l
  induction l with
  | nil => intro st hst; exact hst
  | cons d ds ih => intro st hst; exact ih _ (h st d hst)

/-- The bundle set computed by `resolvePackageGo` only grows. -/
theorem resolvePackageGo_mono (env : BMEnv) (a : String) :
    ∀ (fuel : Nat) (pkg : String) (st : List String × List String),
      a ∈ st.1 → a ∈ (resolvePackageGo env fuel pkg st).1 := by
  intro fuel
  induction fuel with
  | zero =>
    intro pkg st h
    simpa [resolvePackageGo] using h
  | succ n ih =>
    intro pkg st h
    obtain ⟨bundles, resolved⟩ := st
    rw [resolvePackageGo]
    split
    · exact h
    · refine foldl_pres (P := fun st => a ∈ st.1) _ (fun st d hst => ih d st hst) _ _ ?_
      show a ∈ _
      rcases hlk : List.lookup pkg env.packageMap with _ | bn
      · simpa [hlk] using h
      · simp only [hlk]
        split
        · refine foldl_pres (P := fun bs => a ∈ bs) _ ?_ _ _ (mem_sAdd _ h)
          intro bs d hbs
          split
          · exact mem_sAdd _ hbs
          · exact hbs
        · exact h

/-- Every element of the input list ends up in an `sAdd` fold. -/
theorem mem_foldl_sAdd :
    ∀ (l acc : List String) (x : String), x ∈ acc ∨ x ∈ l → x ∈ l.foldl sAdd acc := by
  intro l
  induction l with
  | nil =>
    intro acc x h
    simpa using h.resolve_right (by simp)
  | cons b bs ih =>
    intro acc x h
    rcases h with h | h
    · exact ih _ _ (Or.inl (mem_sAdd _ h))
    · rcases List.mem_cons.mp h with rfl | h
      · exact ih _ _ (Or.inl (self_mem_sAdd _ _))
      · exact ih _ _ (Or.inr h)

/-- The package-closure fold never removes a bundle from the seed. -/
theorem mem_closure_seed (env : BMEnv) (f : Nat) (packages seed : List String)
    (b : String) (h : b ∈ seed) :
    b ∈ (packages.foldl (fun st p => resolvePackageGo env f p st)
          (seed, ([] : List String))).1 :=
  foldl_pres (P := fun st => b ∈ st.1) _
    (fun st p hst => resolvePackageGo_mono env b f p st hst)
    packages (seed, []) h

/-- Claim C9 (amended): for every package list and every engine, the
result of `resolveBundles` contains each of the five fixed core bundle
names `core`, `latex-base`, `l3`, `graphics`, `tools` that the loaded
registry contains.  (The final `filter(b => bundleExists(b))` removes a
seeded name whenever it is absent from the registry, so registry
membership is a necessary hypothesis.) -/
theorem resolveBundles_core_seed (env : BMEnv) (packages : List String)
    (engine : String) (b : String) (hb : b ∈ coreBundles)
    (hreg : bundleExists env b = true) :
    b ∈ resolveBundles env packages engine := by
  have h0 : b ∈ coreBundles.foldl sAdd [] := mem_foldl_sAdd _ _ _ (Or.inr hb)
  have h1 : b ∈
      (if engine = "pdflatex" then
        sAdd (sAdd (sAdd (coreBundles.foldl sAdd []) "fmt-pdflatex") "fonts-cm") "amsfonts"
      else if engine = "xelatex" then
        sAdd (sAdd (sAdd (coreBundles.foldl sAdd []) "fmt-xelatex") "fontspec") "unicode-math"
      else coreBundles.foldl sAdd []) := by
    split
    · exact mem_sAdd _ (mem_sAdd _ (mem_sAdd _ h0))
    · split
      · exact mem_sAdd _ (mem_sAdd _ (mem_sAdd _ h0))
      · exact h0
  show b ∈ List.filter (fun b => bundleExists env b)
    (packages.foldl (fun st p => resolvePackageGo env (bmFuel env packages) p st)
      ((if engine = "pdflatex" then
        sAdd (sAdd (sAdd (coreBundles.foldl sAdd []) "fmt-pdflatex") "fonts-cm") "amsfonts"
      else if engine = "xelatex" then
        sAdd (sAdd (sAdd (coreBundles.foldl sAdd []) "fmt-xelatex") "fontspec") "unicode-math"
      else coreBundles.foldl sAdd []), ([] : List String))).1
  exact List.mem_filter.mpr ⟨mem_closure_seed env _ packages _ b h1, hreg⟩

/-- Claim C9 witness: with a registry that contains the five core
bundles, `core` is in the result. -/
theorem resolveBundles_core_seed_witness :
    ("core" ∈ coreBundles ∧ bundleExists luaEnv "core" = true)
    ∧ "core" ∈ resolveBundles luaEnv ["amsmath"] "pdflatex" :=
⟨⟨by decide, by decide⟩,
 resolveBundles_core_seed luaEnv ["amsmath"] "pdflatex" "core" (by decide) (by decide)⟩

/-- Claim C9 counterexample: with an (empty) loaded registry,
`resolveBundles` does not return `core` — the claim as stated (for every
package list, the result contains all five core names) fails because the
result is filtered by registry membership. -/
theorem resolveBundles_core_seed_counterexample :
    "core" ∉ resolveBundles emptyRegistryEnv [] "pdflatex" := by decide

/-- Claim C1 (amended): the engine-specific trio
`fmt-xelatex`, `fontspec`, `unicode-math` is added for engine
`xelatex` (each name subject to registry membership, as for the core
seed); for engine `lualatex` no engine-specific bundles are added at
all — `resolveBundles` has branches only for `pdflatex` and `xelatex`,
so with an empty package list the lualatex result is exactly the core
seed filtered by the registry. -/
theorem resolveBundles_engine_bundles :
    (∀ (env : BMEnv) (packages : List String) (b : String),
      b ∈ ["fmt-xelatex", "fontspec", "unicode-math"] →
      bundleExists env b = true →
      b ∈ resolveBundles env packages "xelatex")
    ∧ ∀ env : BMEnv,
      resolveBundles env [] "lualatex" = coreBundles.filter (fun b => bundleExists env b) := by
  constructor
  · intro env packages b hb hreg
    have h1 : b ∈ sAdd (sAdd (sAdd (coreBundles.foldl sAdd []) "fmt-xelatex") "fontspec") "unicode-math" := by
      simp only [List.mem_cons, List.not_mem_nil, or_false] at hb
      rcases hb with rfl | rfl | rfl
      · exact mem_sAdd _ (mem_sAdd _ (self_mem_sAdd _ _))
      · exact mem_sAdd _ (self_mem_sAdd _ _)
      · exact self_mem_sAdd _ _
    show b ∈ List.filter (fun b => bundleExists env b)
      (packages.foldl (fun st p => resolvePackageGo env (bmFuel env packages) p st)
        (sAdd (sAdd (sAdd (coreBundles.foldl sAdd []) "fmt-xelatex") "fontspec") "unicode-math",
         ([] : List String))).1
    exact List.mem_filter.mpr ⟨mem_closure_seed env _ packages _ b h1, hreg⟩
  · intro env
    show List.filter (fun b => bundleExists env b) (coreBundles.foldl sAdd []) = _
    rw [show coreBundles.foldl sAdd [] = coreBundles by decide]

/-- Claim C1 witness: with the trio registered, `fmt-xelatex` is in the
xelatex result; and the lualatex result over `luaEnv` is exactly the
core seed. -/
theorem resolveBundles_engine_bundles_witness :
    ("fmt-xelatex" ∈ resolveBundles luaEnv [] "xelatex"
      ∧ bundleExists luaEnv "fmt-xelatex" = true)
    ∧ resolveBundles luaEnv [] "lualatex"
        = coreBundles.filter (fun b => bundleExists luaEnv b) :=
⟨⟨resolveBundles_engine_bundles.1 luaEnv [] "fmt-xelatex" (by decide) (by decide),
  by decide⟩,
 resolveBundles_engine_bundles.2 luaEnv⟩

/-- Claim C1 counterexample: even with `fmt-lualatex`, `fontspec` and
`unicode-math` all present in the registry, calling `resolveBundles`
with engine `lualatex` returns none of them — there is no `lualatex`
branch in the engine-bundle step. -/
theorem resolveBundles_lualatex_counterexample :
    "fmt-lualatex" ∉ resolveBundles luaEnv [] "lualatex"
    ∧ "fontspec" ∉ resolveBundles luaEnv [] "lualatex"
    ∧ "unicode-math" ∉ resolveBundles luaEnv [] "lualatex" := by decide

/-- `ensureDirectory` issues only mkdir calls, never writes. -/
theorem ensureDirGo_no_writes :
    ∀ (ps : List String) (cur : String),
      (BundleLoader.ensureDirGo cur ps).filterMap FsOp.getWrite = [] := by
  intro ps
  induction ps with
  | nil => intro cur; rfl
  | cons p ps ih =>
    intro cur
    simp [BundleLoader.ensureDirGo, FsOp.getWrite, ih]

/-- `ensureDirOps` issues only mkdir calls. -/
theorem ensureDirOps_no_writes (p : String) :
    (BundleLoader.ensureDirOps p).filterMap FsOp.getWrite = [] :=
  ensureDirGo_no_writes _ _

/-- When every loop body issues exactly one write, the write trace of
the whole loop is the map of those writes, in order. -/
theorem bind_writes {α : Type} (body : α → List FsOp) (w : α → String × List Nat)
    (hbody : ∀ a, (body a).filterMap FsOp.getWrite = [w a]) :
    ∀ l : List α, (l.flatMap body).filterMap FsOp.getWrite = l.map w := by
  intro l
  induction l with
  | nil => rfl
  | cons a as ih => simp [List.flatMap_cons, List.filterMap_append, hbody, ih]

/-- Each `BundleLoader.mountBundle` loop body writes exactly its extent. -/
theorem mountFileOps_writes (data : List Nat) (f : BundleLoader.BundleFile) :
    (BundleLoader.mountFileOps data f).filterMap FsOp.getWrite
      = [(f.path ++ "/" ++ f.name, jsSlice data f.start f.stop)] := by
  simp [BundleLoader.mountFileOps, List.filterMap_append, ensureDirOps_no_writes,
    FsOp.getWrite]

/-- Claim C2: for every bundle metadata `M` and decompressed payload
`P`, and every file `f` in `M.files`, `BundleLoader.mountBundle` writes
exactly the byte range `P[f.start:f.end]` to `f.path + "/" + f.name`;
its write trace is precisely the list of those extents in metadata
order, and for each file every `mkdir` of `ensureDirectory(f.path)`
(each accumulated parent prefix) is issued. -/
theorem mountBundle_writes_extents (loaded : List String) (bundleName : String)
    (meta : BundleLoader.BundleMetadata) (data : List Nat)
    (h : bundleName ∉ loaded) :
    ((BundleLoader.mountBundle loaded bundleName meta data).1.filterMap FsOp.getWrite
      = meta.files.map (fun f => (f.path ++ "/" ++ f.name, jsSlice data f.start f.stop)))
    ∧ ∀ f ∈ meta.files,
        FsOp.write (f.path ++ "/" ++ f.name) (jsSlice data f.start f.stop)
          ∈ (BundleLoader.mountBundle loaded bundleName meta data).1
        ∧ ∀ d ∈ BundleLoader.ensureDirOps f.path,
            d ∈ (BundleLoader.mountBundle loaded bundleName meta data).1 := by
  have hops : (BundleLoader.mountBundle loaded bundleName meta data).1
      = meta.files.flatMap (BundleLoader.mountFileOps data) := by
    simp [BundleLoader.mountBundle, h]
  rw [hops]
  refine ⟨bind_writes _ _ (mountFileOps_writes data) meta.files, ?_⟩
  intro f hf
  constructor
  · refine List.mem_flatMap.mpr ⟨f, hf, ?_⟩
    simp [BundleLoader.mountFileOps]
  · intro d hd
    exact List.mem_flatMap.mpr ⟨f, hf, List.mem_append_left _ hd⟩

/-- Claim C2 witness: mounting a concrete one-file bundle writes
exactly the slice `[8, 9]` of the payload `[7, 8, 9]` to the file path. -/
theorem mountBundle_writes_extents_witness :
    ("core" ∉ ([] : List String))
    ∧ (((BundleLoader.mountBundle [] "core" demoMeta [7, 8, 9]).1.filterMap FsOp.getWrite
        = demoMeta.files.map (fun f => (f.path ++ "/" ++ f.name, jsSlice [7, 8, 9] f.start f.stop)))
      ∧ ∀ f ∈ demoMeta.files,
          FsOp.write (f.path ++ "/" ++ f.name) (jsSlice [7, 8, 9] f.start f.stop)
            ∈ (BundleLoader.mountBundle [] "core" demoMeta [7, 8, 9]).1
          ∧ ∀ d ∈ BundleLoader.ensureDirOps f.path,
              d ∈ (BundleLoader.mountBundle [] "core" demoMeta [7, 8, 9]).1) :=
⟨by decide, mountBundle_writes_extents [] "core" demoMeta [7, 8, 9] (by decide)⟩

/-- Claim C4 (amended): `PackageManager.mountBundle` performs no path
validation at all: for every metadata record, every entry is written to
`file.path + "/" + file.name` — the written paths are exactly all the
metadata paths, with no `/texlive/` check, no `Malformed` log entry and
no skipping. -/
theorem pm_mountBundle_no_path_validation (meta : PackageManager.BundleMetadata)
    (data : List Nat) :
    (((PackageManager.mountBundle meta data).filterMap FsOp.getWrite).map Prod.fst
      = meta.files.map (fun f => f.path ++ "/" ++ f.name))
    ∧ ∀ f ∈ meta.files,
        FsOp.write (f.path ++ "/" ++ f.name) (jsSlice data f.start f.stop)
          ∈ PackageManager.mountBundle meta data := by
  constructor
  · have h := bind_writes
      (fun f : PackageManager.BundleFile =>
        BundleLoader.ensureDirOps f.path
          ++ [FsOp.write (f.path ++ "/" ++ f.name) (jsSlice data f.start f.stop)])
      (fun f => (f.path ++ "/" ++ f.name, jsSlice data f.start f.stop))
      (fun f => by
        simp [List.filterMap_append, ensureDirOps_no_writes, FsOp.getWrite])
      meta.files
    rw [show PackageManager.mountBundle meta data
        = meta.files.flatMap (fun f =>
            BundleLoader.ensureDirOps f.path
              ++ [FsOp.write (f.path ++ "/" ++ f.name) (jsSlice data f.start f.stop)])
      from rfl, h]
    simp [List.map_map]
  · intro f hf
    refine List.mem_flatMap.mpr ⟨f, hf, ?_⟩
    simp [PackageManager.mountBundle]

/-- Claim C4 counterexample: a metadata entry whose path is `/evil`
(not under `/texlive/`) is written, not rejected or skipped. -/
theorem mount_path_safety_counterexample :
    FsOp.write "/evil/x.sty" [42]
      ∈ PackageManager.mountBundle PackageManager.evilMeta [42]
    ∧ jsStartsWith "/evil/x.sty" "/texlive/" = false := by decide

/-- Claim C5 (amended): on a cache miss, a transport error (the fetch
rejecting) makes `fetchPackage` return `null` without touching the
record store; and the negative record (`notFound: true`, tagged with
the current cache version) is persisted with a `null` return exactly
when the response status is not ok (outside 200–299 — not only 404) or
the parsed body carries an `error` field. -/
theorem fetchPackage_negative_caching
    (store : CTANFetcher.RecordStore) (opfs : CTANFetcher.Opfs)
    (st : CTANFetcher.FetcherSt) (n : Nat) (pkg : String)
    (hmiss : store pkg = none) :
    ((CTANFetcher.fetchPackage store opfs st n pkg .reject).result = none
      ∧ (CTANFetcher.fetchPackage store opfs st n pkg .reject).store = store)
    ∧ ∀ (status : Nat) (body : Except Unit CTANFetcher.RespBody),
        ((CTANFetcher.fetchPackage store opfs st n pkg (.resp status body)).store pkg
            = some CTANFetcher.notFoundRecord
          ∧ (CTANFetcher.fetchPackage store opfs st n pkg (.resp status body)).result = none)
        ↔ (¬(200 ≤ status ∧ status < 300)
           ∨ ∃ data, body = .ok data ∧ data.error.isSome) := by
  have hcache : CTANFetcher.loadPackageFromCache store opfs st pkg = (none, st) := by
    simp [CTANFetcher.loadPackageFromCache, hmiss]
  constructor
  · simp [CTANFetcher.fetchPackage, hcache]
  · intro status body
    by_cases hok : 200 ≤ status ∧ status < 300
    · cases body with
      | error e =>
        simp [CTANFetcher.fetchPackage, hcache, hok, hmiss]
      | ok data =>
        by_cases herr : data.error.isSome
        · simp [CTANFetcher.fetchPackage, hcache, hok, herr, CTANFetcher.putRecord]
        · simp [CTANFetcher.fetchPackage, hcache, hok, herr, CTANFetcher.putRecord,
            CTANFetcher.notFoundRecord]
    · simp [CTANFetcher.fetchPackage, hcache, hok, CTANFetcher.putRecord]

/-- Claim C5 witness: at a concrete cache miss with a rejecting fetch,
nothing is persisted; and at status 404 with an error-free body the
negative record is persisted. -/
theorem fetchPackage_negative_caching_witness :
    ((fun _ => none : CTANFetcher.RecordStore) "foo" = none)
    ∧ ((CTANFetcher.fetchPackage (fun _ => none) (fun _ => none)
          CTANFetcher.st0 0 "foo" .reject).result = none
      ∧ (CTANFetcher.fetchPackage (fun _ => none) (fun _ => none)
          CTANFetcher.st0 0 "foo" .reject).store = (fun _ => none))
    ∧ (((CTANFetcher.fetchPackage (fun _ => none) (fun _ => none)
          CTANFetcher.st0 0 "foo" (.resp 404 (.ok ⟨none, [], []⟩))).store "foo"
            = some CTANFetcher.notFoundRecord
        ∧ (CTANFetcher.fetchPackage (fun _ => none) (fun _ => none)
            CTANFetcher.st0 0 "foo" (.resp 404 (.ok ⟨none, [], []⟩))).result = none)
       ↔ (¬(200 ≤ 404 ∧ 404 < 300)
          ∨ ∃ data, (.ok ⟨none, [], []⟩ : Except Unit CTANFetcher.RespBody) = .ok data
              ∧ data.error.isSome)) :=
⟨rfl,
 (fetchPackage_negative_caching (fun _ => none) (fun _ => none)
    CTANFetcher.st0 0 "foo" rfl).1,
 (fetchPackage_negative_caching (fun _ => none) (fun _ => none)
    CTANFetcher.st0 0 "foo" rfl).2 404 (.ok ⟨none, [], []⟩)⟩

/-- Claim C5 counterexample: an HTTP 500 response (not a 404, and with
no `error` field in the body since the body is not even parsed) still
persists the negative record — refuting that persistence happens
exactly on 404-or-error-body. -/
theorem fetchPackage_status500_counterexample :
    (CTANFetcher.fetchPackage (fun _ => none) (fun _ => none)
        CTANFetcher.st0 0 "foo" (.resp 500 (.ok ⟨none, [], []⟩))).store "foo"
      = some CTANFetcher.notFoundRecord
    ∧ (CTANFetcher.fetchPackage (fun _ => none) (fun _ => none)
        CTANFetcher.st0 0 "foo" (.resp 500 (.ok ⟨none, [], []⟩))).result = none
    ∧ (500 : Nat) ≠ 404
    ∧ (⟨none, [], []⟩ : CTANFetcher.RespBody).error.isSome = false := by
  refine ⟨?_, ?_, by decide, rfl⟩
  · show (CTANFetcher.putRecord (fun _ => none) "foo" CTANFetcher.notFoundRecord) "foo"
      = some CTANFetcher.notFoundRecord
    simp [CTANFetcher.putRecord]
  · rfl

/-- Claim C6: `fetchPackage` consults the stored record first: a record
with `notFound = true` whose `cacheVersion` equals the current constant
makes the call return `null` immediately, with no network request and
no store write; a record whose `cacheVersion` differs is ignored — the
network path is taken (exactly one request issued) and the returned
result is the one computed as if the record were absent. -/
theorem fetchPackage_cache_consultation :
    (∀ (store : CTANFetcher.RecordStore) (opfs : CTANFetcher.Opfs)
        (st : CTANFetcher.FetcherSt) (n : Nat) (pkg : String)
        (net : CTANFetcher.NetResult) (meta : CTANFetcher.PkgMeta),
      store pkg = some meta → meta.notFound = true →
      meta.cacheVersion = CTAN_CACHE_VERSION →
      (CTANFetcher.fetchPackage store opfs st n pkg net).result = none
      ∧ (CTANFetcher.fetchPackage store opfs st n pkg net).netCalls = n
      ∧ (CTANFetcher.fetchPackage store opfs st n pkg net).store = store)
    ∧ ∀ (store : CTANFetcher.RecordStore) (opfs : CTANFetcher.Opfs)
        (st : CTANFetcher.FetcherSt) (n : Nat) (pkg : String)
        (net : CTANFetcher.NetResult) (meta : CTANFetcher.PkgMeta),
      store pkg = some meta → meta.cacheVersion ≠ CTAN_CACHE_VERSION →
      (CTANFetcher.fetchPackage store opfs st n pkg net).netCalls = n + 1
      ∧ (CTANFetcher.fetchPackage store opfs st n pkg net).result
        = (CTANFetcher.fetchPackage (CTANFetcher.eraseRecord store pkg)
            opfs st n pkg net).result := by
  constructor
  · intro store opfs st n pkg net meta hstore hnf hver
    have hcache : CTANFetcher.loadPackageFromCache store opfs st pkg
        = (some .notFound, st) := by
      simp [CTANFetcher.loadPackageFromCache, hstore, hver, hnf]
    simp [CTANFetcher.fetchPackage, hcache]
  · intro store opfs st n pkg net meta hstore hver
    have hcache : CTANFetcher.loadPackageFromCache store opfs st pkg = (none, st) := by
      simp [CTANFetcher.loadPackageFromCache, hstore, hver]
    have hcache2 : CTANFetcher.loadPackageFromCache
        (CTANFetcher.eraseRecord store pkg) opfs st pkg = (none, st) := by
      simp [CTANFetcher.loadPackageFromCache, CTANFetcher.eraseRecord]
    cases net with
    | reject => simp [CTANFetcher.fetchPackage, hcache, hcache2]
    | resp status body =>
      by_cases hok : 200 ≤ status ∧ status < 300
      · cases body with
        | error e => simp [CTANFetcher.fetchPackage, hcache, hcache2, hok]
        | ok data =>
          by_cases herr : data.error.isSome
          · simp [CTANFetcher.fetchPackage, hcache, hcache2, hok, herr]
          · simp [CTANFetcher.fetchPackage, hcache, hcache2, hok, herr]
      · simp [CTANFetcher.fetchPackage, hcache, hcache2, hok]

/-- Claim C6 witness: a current-version `notFound` record short-circuits
with no network call; a stale-version record is ignored and the network
path is taken. -/
theorem fetchPackage_cache_consultation_witness :
    ((fun k => if k = "foo" then some CTANFetcher.notFoundRecord else none :
        CTANFetcher.RecordStore) "foo" = some CTANFetcher.notFoundRecord
      ∧ CTANFetcher.notFoundRecord.notFound = true
      ∧ CTANFetcher.notFoundRecord.cacheVersion = CTAN_CACHE_VERSION)
    ∧ ((CTANFetcher.fetchPackage
          (fun k => if k = "foo" then some CTANFetcher.notFoundRecord else none)
          (fun _ => none) CTANFetcher.st0 0 "foo" .reject).result = none
      ∧ (CTANFetcher.fetchPackage
          (fun k => if k = "foo" then some CTANFetcher.notFoundRecord else none)
          (fun _ => none) CTANFetcher.st0 0 "foo" .reject).netCalls = 0)
    ∧ ((⟨true, "v0", [], []⟩ : CTANFetcher.PkgMeta).cacheVersion ≠ CTAN_CACHE_VERSION
      ∧ (CTANFetcher.fetchPackage
          (fun k => if k = "foo" then some ⟨true, "v0", [], []⟩ else none)
          (fun _ => none) CTANFetcher.st0 0 "foo" .reject).netCalls = 1) :=
⟨⟨by simp, rfl, rfl⟩,
 ⟨((fetchPackage_cache_consultation.1 _ (fun _ => none) CTANFetcher.st0 0 "foo"
      .reject CTANFetcher.notFoundRecord (by simp) rfl rfl)).1,
  ((fetchPackage_cache_consultation.1 _ (fun _ => none) CTANFetcher.st0 0 "foo"
      .reject CTANFetcher.notFoundRecord (by simp) rfl rfl)).2.1⟩,
 ⟨by decide,
  (fetchPackage_cache_consultation.2 _ (fun _ => none) CTANFetcher.st0 0 "foo"
      .reject ⟨true, "v0", [], []⟩ (by simp) (by decide)).1⟩⟩

/-- A requirement-loop body returns nothing when no package, command
or script condition fires. -/
theorem checkReqOne_none (wc : List Char) (packages : List String)
    (er : Engine × EngineRequirement)
    (hp : ∀ p ∈ packages, er.2.packages.contains p = false)
    (hc : ∀ c ∈ er.2.commands, cmdTest c.data wc = false)
    (hsc : wc.any er.2.scripts = false) :
    checkReqOne wc packages er = none := by
  have h1 : packages.find? (fun p => er.2.packages.contains p) = none :=
    List.find?_eq_none.mpr (fun p hp2 => by simpa using hp p hp2)
  have h2 : er.2.commands.find? (fun c => cmdTest c.data wc) = none :=
    List.find?_eq_none.mpr (fun c hc2 => by simp [hc c hc2])
  simp only [checkReqOne, h1, h2]
  simp [hsc]

/-- Claim C10: `checkRequirements` tests the command regexes and the
Unicode-script regexes against the source with `%` line comments
removed; when every command/script occurrence survives only inside
comments (no regex matches the stripped source) and no requirement
package is among the packages, the hard-requirement step selects no
engine. -/
theorem checkRequirements_ignores_comments (source : String)
    (packages : List String)
    (hp : ∀ er ∈ requirementsList, ∀ p ∈ packages, er.2.packages.contains p = false)
    (hc : ∀ er ∈ requirementsList, ∀ c ∈ er.2.commands,
        cmdTest c.data (stripLineComments source).data = false)
    (hsc : ∀ er ∈ requirementsList,
        (stripLineComments source).data.any er.2.scripts = false) :
    checkRequirements source packages = none := by
  have hx := checkReqOne_none (stripLineComments source).data packages
    (Engine.xelatex, xelatexRequirement)
    (hp _ (by simp [requirementsList])) (hc _ (by simp [requirementsList]))
    (hsc _ (by simp [requirementsList]))
  have hl := checkReqOne_none (stripLineComments source).data packages
    (Engine.lualatex, lualatexRequirement)
    (hp _ (by simp [requirementsList])) (hc _ (by simp [requirementsList]))
    (hsc _ (by simp [requirementsList]))
  simp [checkRequirements, requirementsList, List.findSome?_cons, hx, hl]

/-- Claim C10 witness: in `commentedSource` the `\setmainfont` command
occurs (the raw command regex matches the unstripped source) yet only
inside a line comment, so `checkRequirements` returns nothing. -/
theorem checkRequirements_ignores_comments_witness :
    cmdTest "setmainfont".data commentedSource.data = true
    ∧ (∀ er ∈ requirementsList, ∀ p ∈ extractPackages commentedSource,
        er.2.packages.contains p = false)
    ∧ (∀ er ∈ requirementsList, ∀ c ∈ er.2.commands,
        cmdTest c.data (stripLineComments commentedSource).data = false)
    ∧ (∀ er ∈ requirementsList,
        (stripLineComments commentedSource).data.any er.2.scripts = false)
    ∧ checkRequirements commentedSource (extractPackages commentedSource) = none :=
⟨by decide, by decide, by decide, by decide,
 checkRequirements_ignores_comments commentedSource _ (by decide) (by decide) (by decide)⟩

/-- `reduce((a, b) => a.avgTimeMs < b.avgTimeMs ? a : b)` returns a
member of the list achieving the minimum `avgTimeMs`. -/
theorem foldl_minBy :
    ∀ (fs : List EngineStats) (f : EngineStats),
      (fs.foldl (fun a b => if a.avgTimeMs < b.avgTimeMs then a else b) f) ∈ f :: fs
      ∧ ∀ s ∈ f :: fs,
          (fs.foldl (fun a b => if a.avgTimeMs < b.avgTimeMs then a else b) f).avgTimeMs
            ≤ s.avgTimeMs := by
  intro fs
  induction fs with
  | nil =>
    intro f
    refine ⟨by simp, ?_⟩
    intro s hs
    rw [List.mem_singleton] at hs
    subst hs
    exact le_refl _
  | cons b bs ih =>
    intro f
    have key := ih (if f.avgTimeMs < b.avgTimeMs then f else b)
    have haccmem : (if f.avgTimeMs < b.avgTimeMs then f else b) = f
        ∨ (if f.avgTimeMs < b.avgTimeMs then f else b) = b := by
      split
      · exact Or.inl rfl
      · exact Or.inr rfl
    have haccle : (if f.avgTimeMs < b.avgTimeMs then f else b).avgTimeMs ≤ f.avgTimeMs
        ∧ (if f.avgTimeMs < b.avgTimeMs then f else b).avgTimeMs ≤ b.avgTimeMs := by
      split
      · exact ⟨le_refl _, le_of_lt (by assumption)⟩
      · exact ⟨le_of_not_lt (by assumption), le_refl _⟩
    simp only [List.foldl_cons]
    constructor
    · rcases List.mem_cons.mp key.1 with h | h
      · rcases haccmem with hacc | hacc <;> rw [h, hacc] <;> simp
      · simp [h]
    · intro s hs
      have hres : (bs.foldl (fun a b => if a.avgTimeMs < b.avgTimeMs then a else b)
          (if f.avgTimeMs < b.avgTimeMs then f else b)).avgTimeMs
          ≤ (if f.avgTimeMs < b.avgTimeMs then f else b).avgTimeMs :=
        key.2 _ (List.mem_cons_self _ _)
      rcases List.mem_cons.mp hs with rfl | hs
      · exact le_trans hres haccle.1
      · rcases List.mem_cons.mp hs with rfl | hs
        · exact le_trans hres haccle.2
        · exact key.2 s (List.mem_cons_of_mem _ hs)

/-- Claim C7: when the hard-requirement step fires nothing and the
stored statistics for the preamble fingerprint contain at least one
entry with `compileCount ≥ 2` and `successRate > 0.5`, `select` returns
the engine of an entry of minimal `avgTimeMs` among those entries, with
confidence `high`. -/
theorem select_historical_best (storage : Storage) (source : String)
    (l : List EngineStats)
    (hreq : checkRequirements source (extractPackages source) = none)
    (hstats : storage ("stats_" ++ hashPreamble (extractPreamble source))
        = some (.stats l))
    (hne : l.filter (fun s =>
        decide ((1 : ℚ) / 2 < s.successRate) && decide (2 ≤ s.compileCount)) ≠ []) :
    (select storage source).confidence = .high
    ∧ ∃ e ∈ l.filter (fun s =>
        decide ((1 : ℚ) / 2 < s.successRate) && decide (2 ≤ s.compileCount)),
        (select storage source).engine = e.engine
        ∧ ∀ s ∈ l.filter (fun s =>
            decide ((1 : ℚ) / 2 < s.successRate) && decide (2 ≤ s.compileCount)),
            e.avgTimeMs ≤ s.avgTimeMs := by
  have hget : getStats storage (hashPreamble (extractPreamble source)) = some l := by
    simp [getStats, hstats]
  have hlpos : 0 < l.length := by
    cases l with
    | nil => simp at hne
    | cons a as => simp
  rcases hfs : l.filter (fun s =>
      decide ((1 : ℚ) / 2 < s.successRate) && decide (2 ≤ s.compileCount)) with _ | ⟨f, fs⟩
  · exact absurd hfs hne
  · have hsel : select storage source
        = ⟨(fs.foldl (fun a b => if a.avgTimeMs < b.avgTimeMs then a else b) f).engine,
           "historical best: "
             ++ toString (jsRound
                  (fs.foldl (fun a b => if a.avgTimeMs < b.avgTimeMs then a else b)
                    f).avgTimeMs)
             ++ "ms avg",
           .high⟩ := by
      simp only [select, hreq, hget, hfs, hlpos, if_true]
    have hmin := foldl_minBy fs f
    refine ⟨by rw [hsel], ?_⟩
    refine ⟨fs.foldl (fun a b => if a.avgTimeMs < b.avgTimeMs then a else b) f, ?_, ?_, ?_⟩
    · rw [hfs]
      exact hmin.1
    · rw [hsel]
    · intro s hs
      rw [hfs] at hs
      exact hmin.2 s hs

/-- Claim C7 witness: with `demoStats` stored under the fingerprint of
the empty source, selection picks a qualifying entry of minimal average
time (xelatex at 50ms) with high confidence. -/
theorem select_historical_best_witness :
    (checkRequirements "" (extractPackages "") = none)
    ∧ demoStorage ("stats_" ++ hashPreamble (extractPreamble "")) = some (.stats demoStats)
    ∧ demoStats.filter (fun s =>
        decide ((1 : ℚ) / 2 < s.successRate) && decide (2 ≤ s.compileCount)) ≠ []
    ∧ ((select demoStorage "").confidence = .high
      ∧ ∃ e ∈ demoStats.filter (fun s =>
          decide ((1 : ℚ) / 2 < s.successRate) && decide (2 ≤ s.compileCount)),
          (select demoStorage "").engine = e.engine
          ∧ ∀ s ∈ demoStats.filter (fun s =>
              decide ((1 : ℚ) / 2 < s.successRate) && decide (2 ≤ s.compileCount)),
              e.avgTimeMs ≤ s.avgTimeMs) :=
⟨by decide, by simp [demoStorage],
 by norm_num [demoStats]; exact List.cons_ne_nil _ _,
 select_historical_best demoStorage "" demoStats (by decide) (by simp [demoStorage])
   (by norm_num [demoStats]; exact List.cons_ne_nil _ _)⟩

/-- The stats key and the cm-super flag key of a fingerprint differ. -/
theorem stats_key_ne (h : String) : ("stats_" ++ h) ≠ ("cmsuper_" ++ h) := by
  intro he
  have hlen := congrArg String.length he
  rw [String.length_append, String.length_append] at hlen
  have h1 : ("stats_" : String).length = 6 := rfl
  have h2 : ("cmsuper_" : String).length = 8 := rfl
  omega

/-- One `recordResult` call on a storage holding a single entry for the
result's engine updates that entry by the incremental-mean formulas and
increments `compileCount` by one. -/
theorem recordResult_step (source : String) (r : CompileResult) (storage : Storage)
    (entry : EngineStats) (hent : entry.engine = r.engine)
    (hs : storage ("stats_" ++ hashPreamble (extractPreamble source))
        = some (.stats [entry])) :
    (recordResult storage source r 0) ("stats_" ++ hashPreamble (extractPreamble source))
      = some (.stats [⟨entry.engine, entry.compileCount + 1,
          (entry.avgTimeMs * entry.compileCount + r.timeMs) / (entry.compileCount + 1),
          (entry.successRate * entry.compileCount + (if r.success then 1 else 0))
            / (entry.compileCount + 1), 0⟩]) := by
  have hget : getStats storage (hashPreamble (extractPreamble source)) = some [entry] := by
    simp [getStats, hs]
  have hkey := stats_key_ne (hashPreamble (extractPreamble source))
  cases hcm : r.triggeredCmSuper && decide (r.engine = Engine.pdflatex) with
  | false =>
    simp [recordResult, hget, hcm, updateFirst, hent, saveStats]
  | true =>
    simp [recordResult, hget, hcm, updateFirst, hent, saveStats, setFlag, hkey]

/-- One `recordResult` call on a storage with no stats record creates
the fresh entry and applies the same update to it. -/
theorem recordResult_base (source : String) (r : CompileResult) (storage : Storage)
    (h0 : storage ("stats_" ++ hashPreamble (extractPreamble source)) = none) :
    (recordResult storage source r 0) ("stats_" ++ hashPreamble (extractPreamble source))
      = some (.stats [⟨r.engine, 1,
          ((0 : ℚ) * (0 : Nat) + r.timeMs) / ((0 : Nat) + 1),
          ((0 : ℚ) * (0 : Nat) + (if r.success then 1 else 0)) / ((0 : Nat) + 1), 0⟩]) := by
  have hget : getStats storage (hashPreamble (extractPreamble source)) = none := by
    simp [getStats, h0]
  have hkey := stats_key_ne (hashPreamble (extractPreamble source))
  cases hcm : r.triggeredCmSuper && decide (r.engine = Engine.pdflatex) with
  | false =>
    simp [recordResult, hget, hcm, updateFirst, saveStats]
  | true =>
    simp [recordResult, hget, hcm, updateFirst, saveStats, setFlag, hkey]

/-- Folding `recordResult` over a run of results for one engine keeps
the stored entry at the exact running totals: count `n`, mean `S/n`,
success fraction `K/n`. -/
theorem recordResult_fold (source : String) (E : Engine) :
    ∀ (results : List CompileResult), (∀ r ∈ results, r.engine = E) →
    ∀ (storage : Storage) (n : Nat) (S K : ℚ),
      (n = 0 → S = 0 ∧ K = 0) →
      storage ("stats_" ++ hashPreamble (extractPreamble source))
        = some (.stats [⟨E, n, S / (n : ℚ), K / (n : ℚ), 0⟩]) →
      (results.foldl (fun st r => recordResult st source r 0) storage)
          ("stats_" ++ hashPreamble (extractPreamble source))
        = some (.stats [⟨E, n + results.length,
            (S + (results.map (fun r => r.timeMs)).sum) / ((n + results.length : Nat) : ℚ),
            (K + ((results.filter (fun r => r.success)).length : ℚ))
              / ((n + results.length : Nat) : ℚ), 0⟩]) := by
  intro results
  induction results with
  | nil =>
    intro _ storage n S K _ hs
    simpa using hs
  | cons r rs ih =>
    intro hE storage n S K h0 hs
    have hrE : r.engine = E := hE r (List.mem_cons_self _ _)
    have hSn : S / (n : ℚ) * (n : ℚ) = S := by
      rcases Nat.eq_zero_or_pos n with hn | hn
      · rcases h0 hn with ⟨rfl, _⟩
        simp
      · exact div_mul_cancel₀ S (by exact_mod_cast hn.ne')
    have hKn : K / (n : ℚ) * (n : ℚ) = K := by
      rcases Nat.eq_zero_or_pos n with hn | hn
      · rcases h0 hn with ⟨_, rfl⟩
        simp
      · exact div_mul_cancel₀ K (by exact_mod_cast hn.ne')
    have hstep := recordResult_step source r storage ⟨E, n, S / (n : ℚ), K / (n : ℚ), 0⟩
      (by simpa using hrE.symm) hs
    have hs2 : (recordResult storage source r 0)
        ("stats_" ++ hashPreamble (extractPreamble source))
        = some (.stats [⟨E, n + 1, (S + r.timeMs) / ((n + 1 : Nat) : ℚ),
            (K + (if r.success then 1 else 0)) / ((n + 1 : Nat) : ℚ), 0⟩]) := by
      rw [hstep]
      dsimp only
      rw [hSn, hKn]
      push_cast
      rfl
    have ihres := ih (fun x hx => hE x (List.mem_cons_of_mem _ hx))
      (recordResult storage source r 0) (n + 1) (S + r.timeMs)
      (K + (if r.success then 1 else 0)) (fun h => absurd h (Nat.succ_ne_zero n)) hs2
    have hcount : n + (r :: rs).length = n + 1 + rs.length := by
      rw [List.length_cons]
      omega
    have havg : S + ((r :: rs).map (fun r => r.timeMs)).sum
        = S + r.timeMs + (rs.map (fun r => r.timeMs)).sum := by
      rw [List.map_cons, List.sum_cons]
      ring
    have hrate : K + ((((r :: rs).filter (fun r => r.success)).length : Nat) : ℚ)
        = K + (if r.success then 1 else 0)
          + (((rs.filter (fun r => r.success)).length : Nat) : ℚ) := by
      cases hsucc : r.success with
      | false =>
        simp only [List.filter_cons, hsucc, if_false, Bool.false_eq_true, if_neg,
          cond_false]
        ring
      | true =>
        simp only [List.filter_cons, hsucc, if_true, cond_true, List.length_cons]
        push_cast
        ring
    rw [List.foldl_cons, hcount, havg, hrate]
    exact ihres

/-- Claim C8: for every sequence of results recorded via `recordResult`
for a fixed engine and fingerprint (starting with no stored record),
after each call the stored entry has `avgTimeMs` equal to the
arithmetic mean of all recorded `timeMs`, `successRate` equal to the
fraction of successful results, and `compileCount` equal to the number
of calls (each call adds exactly one); since the sequence is arbitrary,
this holds after every prefix. -/
theorem recordResult_running_means (source : String) (E : Engine)
    (results : List CompileResult) (storage0 : Storage)
    (hE : ∀ r ∈ results, r.engine = E)
    (h0 : storage0 ("stats_" ++ hashPreamble (extractPreamble source)) = none)
    (hne : results ≠ []) :
    (results.foldl (fun st r => recordResult st source r 0) storage0)
        ("stats_" ++ hashPreamble (extractPreamble source))
      = some (.stats [⟨E, results.length,
          (results.map (fun r => r.timeMs)).sum / (results.length : ℚ),
          ((results.filter (fun r => r.success)).length : ℚ) / (results.length : ℚ),
          0⟩]) := by
  cases results with
  | nil => exact absurd rfl hne
  | cons r rs =>
    have hrE : r.engine = E := hE r (List.mem_cons_self _ _)
    have hs1 : (recordResult storage0 source r 0)
        ("stats_" ++ hashPreamble (extractPreamble source))
        = some (.stats [⟨E, 1, r.timeMs / ((1 : Nat) : ℚ),
            (if r.success then 1 else 0) / ((1 : Nat) : ℚ), 0⟩]) := by
      rw [recordResult_base source r storage0 h0, hrE]
      norm_num
    have ihres := recordResult_fold source E rs
      (fun x hx => hE x (List.mem_cons_of_mem _ hx))
      (recordResult storage0 source r 0) 1 r.timeMs (if r.success then 1 else 0)
      (fun h => absurd h Nat.one_ne_zero) hs1
    have hcount : (r :: rs).length = 1 + rs.length := by
      rw [List.length_cons]
      omega
    have havg : ((r :: rs).map (fun r => r.timeMs)).sum
        = r.timeMs + (rs.map (fun r => r.timeMs)).sum := by
      rw [List.map_cons, List.sum_cons]
    have hrate : ((((r :: rs).filter (fun r => r.success)).length : Nat) : ℚ)
        = (if r.success then 1 else 0)
          + (((rs.filter (fun r => r.success)).length : Nat) : ℚ) := by
      cases hsucc : r.success with
      | false =>
        simp only [List.filter_cons, hsucc, if_false, Bool.false_eq_true, if_neg,
          cond_false]
        ring
      | true =>
        simp only [List.filter_cons, hsucc, if_true, cond_true, List.length_cons]
        push_cast
        ring
    rw [List.foldl_cons, hcount, havg, hrate]
    exact ihres

/-- The invariant holds in the cold initial state. -/
theorem pmload_inv_init (o : Bool) : PMLoad.Inv o PMLoad.init := by
  refine ⟨?_, ?_, ?_, ?_, ?_, ?_, ?_, ?_, ?_, ?_, ?_, ?_⟩ <;> simp [PMLoad.init]

/-- Every scheduler step preserves the invariant. -/
theorem pmload_inv_step (o : Bool) (t : PMLoad.Task) (s : PMLoad.St)
    (h : PMLoad.Inv o s) : PMLoad.Inv o (PMLoad.step o t s) := by
  obtain ⟨h1, h2, h3, h4, h5, h6, h7, h8, h9, h10, h11, h12⟩ := h
  cases t with
  | body =>
    show PMLoad.Inv o (PMLoad.bodyStep o s)
    rcases hp : s.prom with _ | fired | b
    · have hstep : PMLoad.bodyStep o s = s := by simp [PMLoad.bodyStep, hp]
      rw [hstep]
      exact ⟨h1, h2, h3, h4, h5, h6, h7, h8, h9, h10, h11, h12⟩
    · cases fired with
      | false =>
        have hstep : PMLoad.bodyStep o s
            = { s with net := s.net + 1, prom := .pend true } := by
          simp [PMLoad.bodyStep, hp]
        rw [hstep]
        refine ⟨?_, ?_, ?_, ?_, ?_, ?_, ?_, ?_, ?_, ?_, ?_, ?_⟩ <;> dsimp only
        · exact h1
        · exact h2
        · intro h0
          have := (h3 h0).2.2.2.1
          rw [hp] at this
          cases this
        · intro b hb
          cases hb
        · intro hld
          have := h5 hld
          rw [hp] at this
          cases this
        · exact h6
        · exact h7
        · intro ho
          have hn := h11 ho hp
          exact ⟨(h8 ho).1, by omega⟩
        · exact h9
        · intro ho _
          have hn := h11 ho hp
          omega
        · intro _ hpp
          cases hpp
        · intro ho b hb
          have := h12 ho b hb
          rw [hp] at this
          cases this
      | true =>
        have hstep : PMLoad.bodyStep o s = { s with prom := .settled o } := by
          simp [PMLoad.bodyStep, hp]
        rw [hstep]
        refine ⟨?_, ?_, ?_, ?_, ?_, ?_, ?_, ?_, ?_, ?_, ?_, ?_⟩ <;> dsimp only
        · exact h1
        · exact h2
        · intro h0
          have := (h3 h0).2.2.2.1
          rw [hp] at this
          cases this
        · intro b hb
          cases hb
          rfl
        · intro hld
          have := h5 hld
          rw [hp] at this
          cases this
        · exact h6
        · exact h7
        · exact h8
        · exact h9
        · intro ho _
          exact h10 ho (Or.inl hp)
        · intro ho hpp
          rw [ho] at hpp
          cases hpp
        · intro ho b _
          rw [ho]
    · have hstep : PMLoad.bodyStep o s = s := by simp [PMLoad.bodyStep, hp]
      rw [hstep]
      exact ⟨h1, h2, h3, h4, h5, h6, h7, h8, h9, h10, h11, h12⟩
  | t1 =>
    rcases hc1 : s.c1 with _ | _ | _ | b
    · by_cases hl : s.loaded = true
      · have hstep : PMLoad.step o .t1 s = { s with c1 := .ret true } := by
          simp [PMLoad.step, PMLoad.callerStep, hc1, hl]
        have hst : s.prom = .settled true := h5 hl
        have ho : true = o := h4 true hst
        rw [hstep]
        refine ⟨?_, ?_, ?_, ?_, ?_, ?_, ?_, ?_, ?_, ?_, ?_, ?_⟩ <;> dsimp only
        · intro hw
          cases hw.1
        · rw [hc1] at h2
          simpa using h2
        · intro h0
          have := (h3 h0).2.2.2.2.2
          rw [hl] at this
          cases this
        · exact h4
        · exact h5
        · intro b hb
          cases hb
          exact ho
        · exact h7
        · exact h8
        · exact h9
        · exact h10
        · exact h11
        · intro hol b hb
          rcases hb with hb | hb
          · cases hb
            exact hst
          · exact h12 hol b (Or.inr hb)
      · by_cases he : s.entry = true
        · have hstep : PMLoad.step o .t1 s = { s with c1 := .joined } := by
            simp [PMLoad.step, PMLoad.callerStep, hc1, hl, he]
          have how2 : s.c2 = .owner := by
            rcases h2.mp he with hw | hw
            · rw [hc1] at hw
              cases hw
            · exact hw
          rw [hstep]
          refine ⟨?_, ?_, ?_, ?_, ?_, ?_, ?_, ?_, ?_, ?_, ?_, ?_⟩ <;> dsimp only
          · intro hw
            cases hw.1
          · simp [he, how2]
          · intro h0
            have := (h3 h0).2.2.2.2.1
            rw [he] at this
            cases this
          · exact h4
          · exact h5
          · intro b hb
            cases hb
          · exact h7
          · exact h8
          · intro ho he2
            rw [he] at he2
            cases he2
          · exact h10
          · exact h11
          · intro ho b hb
            rcases hb with hb | hb
            · cases hb
            · rw [how2] at hb
              cases hb
        · have hl2 : s.loaded = false := by
            cases hld : s.loaded
            · rfl
            · exact absurd hld hl
          have he2 : s.entry = false := by
            cases hee : s.entry
            · rfl
            · exact absurd hee he
          have hstep : PMLoad.step o .t1 s
              = { s with
                  entry := true
                  starts := s.starts + 1
                  prom := .pend false
                  c1 := .owner } := by
            simp [PMLoad.step, PMLoad.callerStep, hc1, hl2, he2]
          have hnoown : ¬(s.c1 = .owner ∨ s.c2 = .owner) := by
            intro hw
            have := h2.mpr hw
            rw [he2] at this
            cases this
          rw [hstep]
          refine ⟨?_, ?_, ?_, ?_, ?_, ?_, ?_, ?_, ?_, ?_, ?_, ?_⟩ <;> dsimp only
          · intro hw
            exact hnoown (Or.inr hw.2)
          · simp
          · intro h0
            cases h0
          · intro b hb
            cases hb
          · intro hld
            rw [hl2] at hld
            cases hld
          · intro b hb
            cases hb
          · exact h7
          · intro ho
            have h0 := h9 ho he2 hl2
            exact ⟨by omega, (h8 ho).2⟩
          · intro _ hee
            cases hee
          · intro _ hpp
            rcases hpp with hpp | hpp <;> cases hpp
          · intro ho _
            have h0 := h9 ho he2 hl2
            exact (h3 h0).2.2.1
          · intro ho b hb
            rcases hb with hb | hb
            · cases hb
            · have hset := h12 ho b (Or.inr hb)
              have h0 := h9 ho he2 hl2
              have := (h3 h0).2.2.2.1
              rw [this] at hset
              cases hset
    · rcases hp : s.prom with _ | fired | b
      · have hcs : PMLoad.callerStep s.c1 s = (.owner, s) := by
          rw [hc1]
          simp [PMLoad.callerStep, hp]
        have hstep : PMLoad.step o .t1 s = { s with c1 := .owner } := by
          simp [PMLoad.step, hcs]
        rw [← hc1] at hstep
        rw [hstep]
        exact ⟨h1, h2, h3, h4, h5, h6, h7, h8, h9, h10, h11, h12⟩
      · have hcs : PMLoad.callerStep s.c1 s = (.owner, s) := by
          rw [hc1]
          simp [PMLoad.callerStep, hp]
        have hstep : PMLoad.step o .t1 s = { s with c1 := .owner } := by
          simp [PMLoad.step, hcs]
        rw [← hc1] at hstep
        rw [hstep]
        exact ⟨h1, h2, h3, h4, h5, h6, h7, h8, h9, h10, h11, h12⟩
      · have hstep : PMLoad.step o .t1 s
            = { s with loaded := s.loaded || b, entry := false, c1 := .ret b } := by
          simp [PMLoad.step, PMLoad.callerStep, hc1, hp]
        have hbo : b = o := h4 b hp
        have hc2no : ¬s.c2 = .owner := fun hw => h1 ⟨hc1, hw⟩
        rw [hstep]
        refine ⟨?_, ?_, ?_, ?_, ?_, ?_, ?_, ?_, ?_, ?_, ?_, ?_⟩ <;> dsimp only
        · intro hw
          cases hw.1
        · simp [hc2no]
        · intro h0
          have := (h3 h0).1
          rw [hc1] at this
          cases this
        · exact h4
        · intro hld
          cases hlds : s.loaded
          · rw [hlds] at hld
            simp at hld
            rw [hld] at hp
            exact hp
          · exact h5 hlds
        · intro b2 hb
          cases hb
          exact hbo
        · exact h7
        · exact h8
        · intro ho _ hld
          rw [hbo, ho] at hld
          simp at hld
        · exact h10
        · exact h11
        · intro ho b2 hb
          rcases hb with hb | hb
          · cases hb
            rw [hbo, ho] at hp
            exact hp
          · exact h12 ho b2 (Or.inr hb)
    · rcases hp : s.prom with _ | fired | b
      · have hcs : PMLoad.callerStep s.c1 s = (.joined, s) := by
          rw [hc1]
          simp [PMLoad.callerStep, hp]
        have hstep : PMLoad.step o .t1 s = { s with c1 := .joined } := by
          simp [PMLoad.step, hcs]
        rw [← hc1] at hstep
        rw [hstep]
        exact ⟨h1, h2, h3, h4, h5, h6, h7, h8, h9, h10, h11, h12⟩
      · have hcs : PMLoad.callerStep s.c1 s = (.joined, s) := by
          rw [hc1]
          simp [PMLoad.callerStep, hp]
        have hstep : PMLoad.step o .t1 s = { s with c1 := .joined } := by
          simp [PMLoad.step, hcs]
        rw [← hc1] at hstep
        rw [hstep]
        exact ⟨h1, h2, h3, h4, h5, h6, h7, h8, h9, h10, h11, h12⟩
      · have hstep : PMLoad.step o .t1 s = { s with c1 := .ret b } := by
          simp [PMLoad.step, PMLoad.callerStep, hc1, hp]
        have hbo : b = o := h4 b hp
        rw [hstep]
        refine ⟨?_, ?_, ?_, ?_, ?_, ?_, ?_, ?_, ?_, ?_, ?_, ?_⟩ <;> dsimp only
        · intro hw
          cases hw.1
        · rw [hc1] at h2
          simpa using h2
        · intro h0
          have := (h3 h0).1
          rw [hc1] at this
          cases this
        · exact h4
        · exact h5
        · intro b2 hb
          cases hb
          exact hbo
        · exact h7
        · exact h8
        · exact h9
        · exact h10
        · exact h11
        · intro ho b2 hb
          rcases hb with hb | hb
          · cases hb
            rw [hbo, ho] at hp
            exact hp
          · exact h12 ho b2 (Or.inr hb)
    · have hcs : PMLoad.callerStep s.c1 s = (.ret b, s) := by
        rw [hc1]
        simp [PMLoad.callerStep]
      have hstep : PMLoad.step o .t1 s = { s with c1 := .ret b } := by
        simp [PMLoad.step, hcs]
      rw [← hc1] at hstep
      rw [hstep]
      exact ⟨h1, h2, h3, h4, h5, h6, h7, h8, h9, h10, h11, h12⟩
  | t2 =>
    rcases hc2 : s.c2 with _ | _ | _ | b
    · by_cases hl : s.loaded = true
      · have hstep : PMLoad.step o .t2 s = { s with c2 := .ret true } := by
          simp [PMLoad.step, PMLoad.callerStep, hc2, hl]
        have hst : s.prom = .settled true := h5 hl
        have ho : true = o := h4 true hst
        rw [hstep]
        refine ⟨?_, ?_, ?_, ?_, ?_, ?_, ?_, ?_, ?_, ?_, ?_, ?_⟩ <;> dsimp only
        · intro hw
          cases hw.2
        · rw [hc2] at h2
          simpa using h2
        · intro h0
          have := (h3 h0).2.2.2.2.2
          rw [hl] at this
          cases this
        · exact h4
        · exact h5
        · exact h6
        · intro b hb
          cases hb
          exact ho
        · exact h8
        · exact h9
        · exact h10
        · exact h11
        · intro hol b hb
          rcases hb with hb | hb
          · exact h12 hol b (Or.inl hb)
          · cases hb
            exact hst
      · by_cases he : s.entry = true
        · have hstep : PMLoad.step o .t2 s = { s with c2 := .joined } := by
            simp [PMLoad.step, PMLoad.callerStep, hc2, hl, he]
          have how1 : s.c1 = .owner := by
            rcases h2.mp he with hw | hw
            · exact hw
            · rw [hc2] at hw
              cases hw
          rw [hstep]
          refine ⟨?_, ?_, ?_, ?_, ?_, ?_, ?_, ?_, ?_, ?_, ?_, ?_⟩ <;> dsimp only
          · intro hw
            cases hw.2
          · simp [he, how1]
          · intro h0
            have := (h3 h0).2.2.2.2.1
            rw [he] at this
            cases this
          · exact h4
          · exact h5
          · exact h6
          · intro b hb
            cases hb
          · exact h8
          · intro ho he2
            rw [he] at he2
            cases he2
          · exact h10
          · exact h11
          · intro ho b hb
            rcases hb with hb | hb
            · rw [how1] at hb
              cases hb
            · cases hb
        · have hl2 : s.loaded = false := by
            cases hld : s.loaded
            · rfl
            · exact absurd hld hl
          have he2 : s.entry = false := by
            cases hee : s.entry
            · rfl
            · exact absurd hee he
          have hstep : PMLoad.step o .t2 s
              = { s with
                  entry := true
                  starts := s.starts + 1
                  prom := .pend false
                  c2 := .owner } := by
            simp [PMLoad.step, PMLoad.callerStep, hc2, hl2, he2]
          have hnoown : ¬(s.c1 = .owner ∨ s.c2 = .owner) := by
            intro hw
            have := h2.mpr hw
            rw [he2] at this
            cases this
          rw [hstep]
          refine ⟨?_, ?_, ?_, ?_, ?_, ?_, ?_, ?_, ?_, ?_, ?_, ?_⟩ <;> dsimp only
          · intro hw
            exact hnoown (Or.inl hw.1)
          · simp
          · intro h0
            cases h0
          · intro b hb
            cases hb
          · intro hld
            rw [hl2] at hld
            cases hld
          · exact h6
          · intro b hb
            cases hb
          · intro ho
            have h0 := h9 ho he2 hl2
            exact ⟨by omega, (h8 ho).2⟩
          · intro _ hee
            cases hee
          · intro _ hpp
            rcases hpp with hpp | hpp <;> cases hpp
          · intro ho _
            have h0 := h9 ho he2 hl2
            exact (h3 h0).2.2.1
          · intro ho b hb
            rcases hb with hb | hb
            · have hset := h12 ho b (Or.inl hb)
              have h0 := h9 ho he2 hl2
              have := (h3 h0).2.2.2.1
              rw [this] at hset
              cases hset
            · cases hb
    · rcases hp : s.prom with _ | fired | b
      · have hcs : PMLoad.callerStep s.c2 s = (.owner, s) := by
          rw [hc2]
          simp [PMLoad.callerStep, hp]
        have hstep : PMLoad.step o .t2 s = { s with c2 := .owner } := by
          simp [PMLoad.step, hcs]
        rw [← hc2] at hstep
        rw [hstep]
        exact ⟨h1, h2, h3, h4, h5, h6, h7, h8, h9, h10, h11, h12⟩
      · have hcs : PMLoad.callerStep s.c2 s = (.owner, s) := by
          rw [hc2]
          simp [PMLoad.callerStep, hp]
        have hstep : PMLoad.step o .t2 s = { s with c2 := .owner } := by
          simp [PMLoad.step, hcs]
        rw [← hc2] at hstep
        rw [hstep]
        exact ⟨h1, h2, h3, h4, h5, h6, h7, h8, h9, h10, h11, h12⟩
      · have hstep : PMLoad.step o .t2 s
            = { s with loaded := s.loaded || b, entry := false, c2 := .ret b } := by
          simp [PMLoad.step, PMLoad.callerStep, hc2, hp]
        have hbo : b = o := h4 b hp
        have hc1no : ¬s.c1 = .owner := fun hw => h1 ⟨hw, hc2⟩
        rw [hstep]
        refine ⟨?_, ?_, ?_, ?_, ?_, ?_, ?_, ?_, ?_, ?_, ?_, ?_⟩ <;> dsimp only
        · intro hw
          cases hw.2
        · simp [hc1no]
        · intro h0
          have := (h3 h0).2.1
          rw [hc2] at this
          cases this
        · exact h4
        · intro hld
          cases hlds : s.loaded
          · rw [hlds] at hld
            simp at hld
            rw [hld] at hp
            exact hp
          · exact h5 hlds
        · exact h6
        · intro b2 hb
          cases hb
          exact hbo
        · exact h8
        · intro ho _ hld
          rw [hbo, ho] at hld
          simp at hld
        · exact h10
        · exact h11
        · intro ho b2 hb
          rcases hb with hb | hb
          · exact h12 ho b2 (Or.inl hb)
          · cases hb
            rw [hbo, ho] at hp
            exact hp
    · rcases hp : s.prom with _ | fired | b
      · have hcs : PMLoad.callerStep s.c2 s = (.joined, s) := by
          rw [hc2]
          simp [PMLoad.callerStep, hp]
        have hstep : PMLoad.step o .t2 s = { s with c2 := .joined } := by
          simp [PMLoad.step, hcs]
        rw [← hc2] at hstep
        rw [hstep]
        exact ⟨h1, h2, h3, h4, h5, h6, h7, h8, h9, h10, h11, h12⟩
      · have hcs : PMLoad.callerStep s.c2 s = (.joined, s) := by
          rw [hc2]
          simp [PMLoad.callerStep, hp]
        have hstep : PMLoad.step o .t2 s = { s with c2 := .joined } := by
          simp [PMLoad.step, hcs]
        rw [← hc2] at hstep
        rw [hstep]
        exact ⟨h1, h2, h3, h4, h5, h6, h7, h8, h9, h10, h11, h12⟩
      · have hstep : PMLoad.step o .t2 s = { s with c2 := .ret b } := by
          simp [PMLoad.step, PMLoad.callerStep, hc2, hp]
        have hbo : b = o := h4 b hp
        rw [hstep]
        refine ⟨?_, ?_, ?_, ?_, ?_, ?_, ?_, ?_, ?_, ?_, ?_, ?_⟩ <;> dsimp only
        · intro hw
          cases hw.2
        · rw [hc2] at h2
          simpa using h2
        · intro h0
          have := (h3 h0).2.1
          rw [hc2] at this
          cases this
        · exact h4
        · exact h5
        · exact h6
        · intro b2 hb
          cases hb
          exact hbo
        · exact h8
        · exact h9
        · exact h10
        · exact h11
        · intro ho b2 hb
          rcases hb with hb | hb
          · exact h12 ho b2 (Or.inl hb)
          · cases hb
            rw [hbo, ho] at hp
            exact hp
    · have hcs : PMLoad.callerStep s.c2 s = (.ret b, s) := by
        rw [hc2]
        simp [PMLoad.callerStep]
      have hstep : PMLoad.step o .t2 s = { s with c2 := .ret b } := by
        simp [PMLoad.step, hcs]
      rw [← hc2] at hstep
      rw [hstep]
      exact ⟨h1, h2, h3, h4, h5, h6, h7, h8, h9, h10, h11, h12⟩

/-- The invariant holds after every schedule. -/
theorem pmload_inv_run (o : Bool) (sched : List PMLoad.Task) :
    PMLoad.Inv o (PMLoad.run o sched) := by
  have hgen : ∀ (l : List PMLoad.Task) (s : PMLoad.St), PMLoad.Inv o s →
      PMLoad.Inv o (l.foldl (fun s t => PMLoad.step o t s) s) := by
    intro l
    induction l with
    | nil => intro s hs; exact hs
    | cons t ts ih => intro s hs; exact ih _ (pmload_inv_step o t s hs)
  exact hgen sched PMLoad.init (pmload_inv_init o)

/-- Claim C3 (amended): `PackageManager.loadBundle` deduplicates
in-flight loads by name.  For every outcome and every cooperative
schedule of two callers from a cold cache: the `loadingBundles` entry
exists exactly while some caller owns an unfinished `_loadBundle`
(so it is removed on completion, success or failure); on the success
outcome at most one `_loadBundle` invocation and at most one network
request ever happen; and when both callers have returned, both
observed the outcome, and on success exactly one invocation and one
request served both — the second caller joined the first's pending
promise. -/
theorem pm_loadBundle_dedup (o : Bool) (sched : List PMLoad.Task) :
    ((PMLoad.run o sched).entry = true
      ↔ ((PMLoad.run o sched).c1 = .owner ∨ (PMLoad.run o sched).c2 = .owner))
    ∧ (o = true → (PMLoad.run o sched).starts ≤ 1 ∧ (PMLoad.run o sched).net ≤ 1)
    ∧ ∀ b b2, (PMLoad.run o sched).c1 = .ret b → (PMLoad.run o sched).c2 = .ret b2 →
        (PMLoad.run o sched).entry = false
        ∧ b = o ∧ b2 = o
        ∧ (o = true → (PMLoad.run o sched).starts = 1 ∧ (PMLoad.run o sched).net = 1) := by
  obtain ⟨h1, h2, h3, h4, h5, h6, h7, h8, h9, h10, h11, h12⟩ := pmload_inv_run o sched
  refine ⟨h2, h8, ?_⟩
  intro b b2 hb1 hb2
  have hentry : (PMLoad.run o sched).entry = false := by
    cases hee : (PMLoad.run o sched).entry
    · rfl
    · rcases h2.mp hee with hw | hw
      · rw [hb1] at hw
        cases hw
      · rw [hb2] at hw
        cases hw
  refine ⟨hentry, h6 b hb1, h7 b2 hb2, ?_⟩
  intro ho
  have hset := h12 ho b (Or.inl hb1)
  have hnet : (PMLoad.run o sched).net = 1 := h10 ho (Or.inr hset)
  have hstarts : (PMLoad.run o sched).starts ≠ 0 := by
    intro h0
    have := (h3 h0).1
    rw [hb1] at this
    cases this
  exact ⟨by have := (h8 ho).1; omega, hnet⟩

/-- Claim C3 witness: on the schedule where both callers enter before
the body settles successfully, both return success with exactly one
`_loadBundle` invocation and one network request, and the dedup map
entry is gone. -/
theorem pm_loadBundle_dedup_witness :
    ((PMLoad.run true PMLoad.demoSched).c1 = .ret true
      ∧ (PMLoad.run true PMLoad.demoSched).c2 = .ret true)
    ∧ ((PMLoad.run true PMLoad.demoSched).entry = false
      ∧ true = true ∧ true = true
      ∧ (true = true → (PMLoad.run true PMLoad.demoSched).starts = 1
          ∧ (PMLoad.run true PMLoad.demoSched).net = 1)) :=
⟨⟨by decide, by decide⟩,
 (pm_loadBundle_dedup true PMLoad.demoSched).2.2 true true (by decide) (by decide)⟩

/-- Claim C3 counterexample: `BundleManager.loadBundle` has no dedup
map: on an alternating schedule of two cold-cache callers, both miss
the memory cache, both miss OPFS, and both issue a network request —
the second caller does not join the first's pending result. -/
theorem bm_loadBundle_no_dedup_counterexample :
    (BMLoad.run [.t1, .t2, .t1, .t2, .t1, .t2, .t1, .t2, .t1, .t2]).c1 = .ret
    ∧ (BMLoad.run [.t1, .t2, .t1, .t2, .t1, .t2, .t1, .t2, .t1, .t2]).c2 = .ret
    ∧ (BMLoad.run [.t1, .t2, .t1, .t2, .t1, .t2, .t1, .t2, .t1, .t2]).net = 2 := by
  decide

/-- Claim C8 witness: two recorded pdflatex results (success in 10ms,
failure in 20ms) leave the entry at count 2, mean 15ms, success rate
one half. -/
theorem recordResult_running_means_witness :
    (∀ r ∈ [(⟨Engine.pdflatex, true, 10, 0, [], false⟩ : CompileResult),
            ⟨Engine.pdflatex, false, 20, 0, [], false⟩], r.engine = Engine.pdflatex)
    ∧ ((fun _ => none : Storage)
        ("stats_" ++ hashPreamble (extractPreamble "doc")) = none)
    ∧ (([(⟨Engine.pdflatex, true, 10, 0, [], false⟩ : CompileResult),
         ⟨Engine.pdflatex, false, 20, 0, [], false⟩] : List CompileResult) ≠ [])
    ∧ (([(⟨Engine.pdflatex, true, 10, 0, [], false⟩ : CompileResult),
         ⟨Engine.pdflatex, false, 20, 0, [], false⟩].foldl
          (fun st r => recordResult st "doc" r 0) (fun _ => none))
        ("stats_" ++ hashPreamble (extractPreamble "doc"))
      = some (.stats [⟨Engine.pdflatex,
          ([(⟨Engine.pdflatex, true, 10, 0, [], false⟩ : CompileResult),
            ⟨Engine.pdflatex, false, 20, 0, [], false⟩]).length,
          (([(⟨Engine.pdflatex, true, 10, 0, [], false⟩ : CompileResult),
             ⟨Engine.pdflatex, false, 20, 0, [], false⟩]).map
               (fun r => r.timeMs)).sum
            / (([(⟨Engine.pdflatex, true, 10, 0, [], false⟩ : CompileResult),
                 ⟨Engine.pdflatex, false, 20, 0, [], false⟩]).length : ℚ),
          ((([(⟨Engine.pdflatex, true, 10, 0, [], false⟩ : CompileResult),
              ⟨Engine.pdflatex, false, 20, 0, [], false⟩]).filter
                (fun r => r.success)).length : ℚ)
            / (([(⟨Engine.pdflatex, true, 10, 0, [], false⟩ : CompileResult),
                 ⟨Engine.pdflatex, false, 20, 0, [], false⟩]).length : ℚ),
          0⟩])) :=
⟨by decide, rfl, by simp,
 recordResult_running_means "doc" Engine.pdflatex _ (fun _ => none)
   (by decide) rfl (by simp)⟩

end BusytexLazy
